import Mathlib

/-!
A shallow embedding of the in-memory CloudWatchLogs test double
(class FakeCloudwatchLogs of fake-aws): the log store and query engine,
its populate (append) operations and its describe/get (list/query)
operations, together with theorems settling the specification's claims.

Modelling conventions:
* JavaScript numbers holding millisecond timestamps become `Int`.
* A JavaScript field that may be `undefined` and is only ever used through
  truthiness tests is modelled as `Int` with `0` standing for both
  `undefined` and the (equally falsy) number `0`; `String` fields use `""`
  for a falsy or absent value, `Option` models optional request members.
* The `Record` objects keyed by composite `a::b::c` strings become
  functions `String → Option _`.
* `Date.now()` is passed in explicitly as a `now : Int` argument.
* The random `cuuid()` pagination-token ids become opaque `Nat` ids drawn
  from a counter held in the state, which models their freshness.
* `Array.prototype.sort(cmp)` (a stable sort in Node) is modelled as a
  stable insertion sort directed by the JavaScript comparator: elements are
  taken left to right and each is inserted in front of the first element
  `y` of the already-sorted part with `cmp x y < 0`.  A comparator-less
  `Array.prototype.sort()` compares decimal string renderings.
* Operations that can throw return `Except String` carrying the message; a
  throwing `populateEvents` additionally returns the mutated state, since
  the JavaScript mutations made before the throw persist.
-/

deriving instance DecidableEq for Except

namespace FakeCloudwatchLogs

/-- One log event (OutputLogEvent); `populateEvents` requires all three
fields, so they are not optional here. -/
structure OutputLogEvent where
  timestamp : Int
  message : String
  ingestionTime : Int
deriving DecidableEq, Repr

/-- One log stream record.  The three metadata timestamps use `0` for the
JavaScript `undefined` (they are only ever read through truthiness tests
and strict comparisons against truthy values). -/
structure LogStream where
  logStreamName : String
  creationTime : Int := 0
  firstEventTimestamp : Int := 0
  lastEventTimestamp : Int := 0
  lastIngestionTime : Int := 0
  arn : String := ""
  uploadSequenceToken : String := ""
  storedBytes : Int := 0
deriving DecidableEq, Repr

/-- One log group record. -/
structure LogGroup where
  logGroupName : String
  creationTime : Int := 0
  metricFilterCount : Int := 0
  arn : String := ""
  storedBytes : Int := 0
deriving DecidableEq, Repr

/-- The mutable store of the fake: the four composite-keyed maps and the
token counter that stands in for cuuid freshness. -/
structure State where
  rawGroups : String → Option (List LogGroup)
  rawStreams : String → Option (List LogStream)
  rawEvents : String → Option (List OutputLogEvent)
  tokens : Nat → Option Int
  tokenCounter : Nat
  ingestionDelay : Int

def SECOND : Int := 1000

def MINUTE : Int := 60 * SECOND

def HOUR : Int := 60 * MINUTE

def INGESTION_DELAY : Int := 1 * HOUR

/-- The store as built by the constructor: empty maps, and
`options.ingestionDelay || INGESTION_DELAY` (`0` encodes an absent
option, matching JavaScript falsiness). -/
def initialState (delayOption : Int) : State where
  rawGroups := fun _ => none
  rawStreams := fun _ => none
  rawEvents := fun _ => none
  tokens := fun _ => none
  tokenCounter := 0
  ingestionDelay := if delayOption = 0 then INGESTION_DELAY else delayOption

/-- The composite key under which a scope's groups are stored. -/
def scopeKey (profile region : String) : String := profile ++ "::" ++ region

/-- The composite key under which a group's stream bucket is stored. -/
def streamKey (profile region groupName : String) : String :=
  scopeKey profile region ++ "::" ++ groupName

/-- The composite key under which a stream's event list is stored. -/
def eventKey (profile region groupName streamName : String) : String :=
  streamKey profile region groupName ++ "::" ++ streamName

/-- Pointwise update of a string-keyed map (property assignment / delete). -/
def mapUpdate {α : Type} (m : String → Option α) (k : String) (v : Option α) :
    String → Option α :=
  fun q => if q = k then v else m q

/-- Pointwise update of the token map. -/
def tokUpdate (m : Nat → Option Int) (k : Nat) (v : Option Int) : Nat → Option Int :=
  fun q => if q = k then v else m q

/-- Stable insertion directed by a JavaScript comparator: the inserted
element passes every element the comparator does not order it before. -/
def insertCmp {α : Type} (cmp : α → α → Int) (x : α) : List α → List α
  | [] => [x]
  | y :: ys => if cmp x y < 0 then x :: y :: ys else y :: insertCmp cmp x ys

/-- Stable comparator-directed sort modelling Node's Array.prototype.sort:
elements are inserted left to right, later ones after earlier equals. -/
def sortCmp {α : Type} (cmp : α → α → Int) (l : List α) : List α :=
  l.foldl (fun acc x => insertCmp cmp x acc) []

/-- Lexicographic order on code points, the model of JavaScript string
comparison (the key strings here are ASCII, where the two agree). -/
def lexLt : List Char → List Char → Bool
  | [], [] => false
  | [], _ :: _ => true
  | _ :: _, [] => false
  | a :: as, b :: bs =>
    if a.toNat < b.toNat then true
    else if b.toNat < a.toNat then false
    else lexLt as bs

/-- JavaScript string less-than. -/
def strLtB (a b : String) : Bool := lexLt a.data b.data

/-- The comparator of a comparator-less JavaScript `sort()` on numbers: it
compares the decimal string renderings (the classic lexicographic sort). -/
def jsDefaultCmp (a b : Int) : Int :=
  if strLtB (toString a) (toString b) then -1
  else if strLtB (toString b) (toString a) then 1
  else 0

/-- The comparator passed to `events.sort` in `populateEvents`: a falsy
timestamp sorts last, otherwise ascending by timestamp (a tie reports 1). -/
def eventCmp (a b : OutputLogEvent) : Int :=
  if a.timestamp = 0 then 1
  else if b.timestamp = 0 then -1
  else if a.timestamp < b.timestamp then -1 else 1

/-- The comparator used by `describeLogStreams` for the LogStreamName
order: a falsy name sorts first, otherwise ascending by name. -/
def streamNameCmp (a b : LogStream) : Int :=
  if a.logStreamName = "" then -1
  else if b.logStreamName = "" then 1
  else if strLtB a.logStreamName b.logStreamName then -1 else 1

/-- JavaScript Array.prototype.slice, including its handling of negative
and out-of-range indices: a negative index counts from the end (clamped at
0), a positive one is clamped at the length, and the elements with
resolved index at least start and below end are kept. -/
def jsSlice {α : Type} (l : List α) (s e : Int) : List α :=
  (l.take (if e < 0 then max ((l.length : Int) + e) 0
           else min e (l.length : Int)).toNat).drop
    (if s < 0 then max ((l.length : Int) + s) 0
     else min s (l.length : Int)).toNat

/-- Registering a fresh pagination token for an offset (cuuid plus
assignment into `this.tokens`). -/
def mintToken (st : State) (off : Int) : Nat × State :=
  (st.tokenCounter,
   { st with tokens := tokUpdate st.tokens st.tokenCounter (some off),
             tokenCounter := st.tokenCounter + 1 })

/-- Deleting a presented token (`delete this.tokens[...]`). -/
def consumeToken (st : State) (t : Nat) : State :=
  { st with tokens := tokUpdate st.tokens t none }

/-- A page returned by the shared pagination helper. -/
structure Page (α : Type) where
  items : List α
  nextToken : Option Nat
deriving DecidableEq, Repr

/-- The slice-and-mint tail of `paginate`, after the offset is known. -/
def paginateGo {α : Type} (st : State) (rawItems : List α) (off lim0 : Int) :
    Page α × State :=
  let lim := if lim0 = 0 then 50 else lim0
  let e := off + lim
  let items := jsSlice rawItems off e
  if (rawItems.length : Int) > e then
    let minted := mintToken st e
    ({ items := items, nextToken := some minted.1 }, minted.2)
  else
    ({ items := items, nextToken := none }, st)

/-- The shared pagination helper: resolve (and delete) a presented token to
an offset, slice, and mint a next token when more items remain.  The
source deletes the map entry before testing it, which is observationally
the plain lookup-then-delete modelled here. -/
def paginate {α : Type} (st : State) (rawItems : List α) (prevToken : Option Nat)
    (lim0 : Int) : Except String (Page α × State) :=
  match prevToken with
  | none => .ok (paginateGo st rawItems 0 lim0)
  | some t =>
    match st.tokens t with
    | none => .error ("invalid nextToken: " ++ toString t)
    | some off => .ok (paginateGo (consumeToken st t) rawItems off lim0)

/-- The per-group body of the `populateGroups` loop: mark the group's
stream bucket known (empty) when it is absent (an existing, even empty,
array is truthy in JavaScript and is kept). -/
def markGroupStream (key : String) (s : State) (g : LogGroup) : State :=
  match s.rawStreams (key ++ "::" ++ g.logGroupName) with
  | some _ => s
  | none =>
    { s with rawStreams := mapUpdate s.rawStreams (key ++ "::" ++ g.logGroupName) (some []) }

/-- appendGroups (`populateGroups`): push the new groups onto the scope's
group list and mark each new group's stream bucket. -/
def populateGroups (st : State) (profile region : String) (newGroups : List LogGroup) :
    State :=
  let key := scopeKey profile region
  let groups := (st.rawGroups key).getD [] ++ newGroups
  let st1 := { st with rawGroups := mapUpdate st.rawGroups key (some groups) }
  newGroups.foldl (markGroupStream key) st1

/-- appendStreams (`populateStreams`): push the new streams onto the
(scope, group) bucket, creating it when absent. -/
def populateStreams (st : State) (profile region groupName : String)
    (newStreams : List LogStream) : State :=
  let key := streamKey profile region groupName
  let streams := (st.rawStreams key).getD [] ++ newStreams
  { st with rawStreams := mapUpdate st.rawStreams key (some streams) }

/-- The running-minimum update of the `populateEvents` loop: the youngest
timestamp so far starts at Infinity (here `none`) and is lowered by each
smaller timestamp. -/
def minOpt (yT : Option Int) (t : Int) : Option Int :=
  match yT with
  | none => some t
  | some y => if t < y then some t else some y

/-- The per-event loop of `populateEvents`: assert each event has a truthy
timestamp and ingestionTime while accumulating the maximum timestamp
(from 0), maximum ingestionTime (from 0), and minimum timestamp (from
Infinity, modelled as `none`). -/
def scanEvents : List OutputLogEvent → Int → Int → Option Int →
    Except String (Int × Int × Option Int)
  | [], oT, oI, yT => .ok (oT, oI, yT)
  | e :: rest, oT, oI, yT =>
    if e.timestamp = 0 then .error "valid timestamp"
    else if e.ingestionTime = 0 then .error "valid ingestionTime"
    else
      scanEvents rest
        (if e.timestamp > oT then e.timestamp else oT)
        (if e.ingestionTime > oI then e.ingestionTime else oI)
        (minOpt yT e.timestamp)

/-- The delayed high-water-mark scan of `populateEvents`: the first
timestamp in the given order meeting all three visibility conditions. -/
def pickTimestamp (now delay lastIngestion lastEvent : Int) : List Int → Option Int
  | [] => none
  | t :: ts =>
    if t < now - delay ∧ t < lastIngestion - delay ∧ t > lastEvent then some t
    else pickTimestamp now delay lastIngestion lastEvent ts

/-- In-place mutation of the first list element matching a predicate (the
JavaScript `find` returns a live reference that is then assigned to). -/
def replaceFirst {α : Type} (p : α → Bool) (v : α) : List α → List α
  | [] => []
  | x :: xs => if p x then v :: xs else x :: replaceFirst p v xs

/-- The stream-metadata mutation of `populateEvents` once the consistency
check has passed: set firstEventTimestamp when unset, always overwrite
lastIngestionTime, then update lastEventTimestamp — bootstrapping it to
the maximum timestamp when unset, otherwise advancing it to the first
entry of the given timestamp order meeting the visibility conditions. -/
def updateStreamMeta (delay now oldestTs oldestIngestion : Int) (youngestTs : Option Int)
    (timestamps : List Int) (stream : LogStream) : LogStream :=
  let stream1 :=
    if stream.firstEventTimestamp = 0 then
      { stream with firstEventTimestamp := youngestTs.getD 0 }
    else stream
  let stream2 := { stream1 with lastIngestionTime := oldestIngestion }
  if stream2.lastEventTimestamp = 0 then
    { stream2 with lastEventTimestamp := oldestTs }
  else
    match pickTimestamp now delay stream2.lastIngestionTime
        stream2.lastEventTimestamp timestamps with
    | some t => { stream2 with lastEventTimestamp := t }
    | none => stream2

/-- appendEvents (`populateEvents`).  Returns the successor state with the
call's outcome; on a throw the state keeps every mutation already made
(in particular the merged, re-sorted event list).  The source's
`e.timestamp || 0` in the timestamp map is the identity under the Int
encoding, and `youngestTs.getD 0` is only forced when the event list is
empty, which the leading length check excludes. -/
def populateEvents (st : State) (now : Int) (profile region groupName streamName : String)
    (newEvents : List OutputLogEvent) : State × Except String Unit :=
  if newEvents.length = 0 then (st, .error "Cannot add empty events array")
  else
    let key := eventKey profile region groupName streamName
    let events := sortCmp eventCmp ((st.rawEvents key).getD [] ++ newEvents)
    let st1 := { st with rawEvents := mapUpdate st.rawEvents key (some events) }
    let skey := streamKey profile region groupName
    match st1.rawStreams skey with
    | none => (st1, .error ("could not find streams for: " ++ groupName))
    | some bucket =>
      match bucket.find? (fun s => s.logStreamName == streamName) with
      | none => (st1, .error ("could not find stream: " ++ streamName))
      | some stream =>
        match scanEvents events 0 0 none with
        | .error msg => (st1, .error msg)
        | .ok (oldestTs, oldestIngestion, youngestTs) =>
          if stream.firstEventTimestamp ≠ 0 ∧ youngestTs ≠ some stream.firstEventTimestamp then
            (st1, .error "Cannot populateEvents() that are younger then existing events")
          else
            let timestamps :=
              (sortCmp jsDefaultCmp (events.map (fun e => e.timestamp))).reverse
            let stream3 := updateStreamMeta st.ingestionDelay now oldestTs oldestIngestion
              youngestTs timestamps stream
            let bucket1 := replaceFirst (fun s => s.logStreamName == streamName) stream3 bucket
            ({ st1 with rawStreams := mapUpdate st1.rawStreams skey (some bucket1) }, .ok ())

/-- Request body of describeLogGroups (the members the fake reads). -/
structure DescribeLogGroupsRequest where
  limit : Int := 0
  nextToken : Option Nat := none
deriving DecidableEq, Repr

/-- Response of describeLogGroups. -/
structure DescribeLogGroupsResponse where
  logGroups : List LogGroup
  nextToken : Option Nat
deriving DecidableEq, Repr

/-- describeLogGroups.  The tenant scope arrives already resolved (the
credential-header parsing is outside the core). -/
def describeLogGroups (st : State) (profile region : String)
    (body : DescribeLogGroupsRequest) :
    Except String (DescribeLogGroupsResponse × State) :=
  match st.rawGroups (scopeKey profile region) with
  | none => .ok ({ logGroups := [], nextToken := none }, st)
  | some groups =>
    (paginate st groups body.nextToken body.limit).map fun pg =>
      ({ logGroups := pg.1.items, nextToken := pg.1.nextToken }, pg.2)

/-- Request body of describeLogStreams.  The source field name ending in
-Prefix is abbreviated to -Pfx here. -/
structure DescribeLogStreamsRequest where
  logGroupName : String := ""
  orderBy : String := ""
  descending : Bool := false
  logStreamNamePfx : String := ""
  nextToken : Option Nat := none
  limit : Int := 0
deriving DecidableEq, Repr

/-- Response of describeLogStreams. -/
structure DescribeLogStreamsResponse where
  logStreams : List LogStream
  nextToken : Option Nat
deriving DecidableEq, Repr

/-- describeLogStreams: validation, bucket lookup, optional name sort (only
for the LogStreamName order), optional reverse, optional name-prefix
filter, then pagination. -/
def describeLogStreams (st : State) (profile region : String)
    (body : DescribeLogStreamsRequest) :
    Except String (DescribeLogStreamsResponse × State) :=
  if body.logGroupName = "" then
    .error "Missing required key 'logGroupName' in params"
  else if body.orderBy ≠ "" ∧ body.orderBy ≠ "LogStreamName" ∧
      body.orderBy ≠ "LastEventTime" then
    .error "Invalid required key 'orderBy' in params"
  else
    match st.rawStreams (streamKey profile region body.logGroupName) with
    | none => .error "The specified log group does not exist."
    | some bucket =>
      let ordered : Except String (List LogStream) :=
        if body.orderBy = "" ∨ body.orderBy = "LogStreamName" then
          .ok (sortCmp streamNameCmp bucket)
        else if body.orderBy = "LastEventTime" then
          if body.logStreamNamePfx ≠ "" then
            .error "Cannot order by LastEventTime with a logStreamNamePrefix."
          else .ok bucket
        else .ok bucket
      ordered.bind fun l0 =>
        let l1 := if body.descending then l0.reverse else l0
        let l2 :=
          if body.logStreamNamePfx ≠ "" then
            l1.filter (fun s =>
              decide (s.logStreamName ≠ "") && s.logStreamName.startsWith body.logStreamNamePfx)
          else l1
        (paginate st l2 body.nextToken body.limit).map fun pg =>
          ({ logStreams := pg.1.items, nextToken := pg.1.nextToken }, pg.2)

/-- Request body of getLogEvents (the members the fake reads). -/
structure GetLogEventsRequest where
  logGroupName : String := ""
  logStreamName : String := ""
  startTime : Int := 0
  endTime : Int := 0
  nextToken : Option Nat := none
  limit : Int := 0
deriving DecidableEq, Repr

/-- Response of getLogEvents.  The unknown-stream early return carries no
token members, modelled by `none`. -/
structure GetLogEventsResponse where
  events : List OutputLogEvent
  nextForwardToken : Option Nat := none
  nextBackwardToken : Option Nat := none
deriving DecidableEq, Repr

/-- The optional time-range filter of getLogEvents: applied only when a
truthy startTime or endTime is present; a falsy event timestamp is always
dropped, a falsy startTime means 0 and a falsy endTime means Infinity. -/
def filteredEvents (body : GetLogEventsRequest) (events0 : List OutputLogEvent) :
    List OutputLogEvent :=
  if body.startTime ≠ 0 ∨ body.endTime ≠ 0 then
    events0.filter (fun e =>
      decide (e.timestamp ≠ 0 ∧ body.startTime ≤ e.timestamp ∧
        (body.endTime = 0 ∨ e.timestamp < body.endTime)))
  else events0

/-- getLogEvents: tail-anchored window over the (optionally time-filtered)
event list, plus unconditional minting of one forward and one backward
token once the main path is reached. -/
def getLogEvents (st : State) (profile region : String) (body : GetLogEventsRequest) :
    Except String (GetLogEventsResponse × State) :=
  match st.rawEvents (eventKey profile region body.logGroupName body.logStreamName) with
  | none => .ok ({ events := [] }, st)
  | some events0 =>
    let events := filteredEvents body events0
    let resolved : Except String (Int × State) :=
      match body.nextToken with
      | none => .ok (0, st)
      | some t =>
        match st.tokens t with
        | none => .error ("invalid nextToken: " ++ toString t)
        | some off => .ok (off, consumeToken st t)
    resolved.map fun os =>
      let off := os.1
      let lim := if body.limit = 0 then 10000 else body.limit
      let len : Int := (events.length : Int)
      let start0 := len - lim - off
      let end0 := len - off
      let start1 := if start0 < 0 then 0 else start0
      let end1 := if end0 < 0 then 0 else end0
      let fMint := mintToken os.2 (off + (-lim))
      let bMint := mintToken fMint.2 (off + lim)
      ({ events := jsSlice events start1 end1,
         nextForwardToken := some fMint.1,
         nextBackwardToken := some bMint.1 }, bMint.2)

/-- One append operation, the store's mutating interface. -/
inductive AppendOp where
  | groups (profile region : String) (gs : List LogGroup)
  | streams (profile region groupName : String) (ss : List LogStream)
  | events (now : Int) (profile region groupName streamName : String)
      (evs : List OutputLogEvent)

/-- Apply one append operation, keeping the state a failed call leaves. -/
def applyOp (st : State) : AppendOp → State × Except String Unit
  | .groups p r gs => (populateGroups st p r gs, .ok ())
  | .streams p r g ss => (populateStreams st p r g ss, .ok ())
  | .events now p r g s evs => populateEvents st now p r g s evs

/-- Apply a sequence of append operations. -/
def applyOps (st : State) (ops : List AppendOp) : State :=
  ops.foldl (fun s op => (applyOp s op).1) st

/-- Every operation of the sequence succeeds when run in order. -/
def allOk : State → List AppendOp → Prop
  | _, [] => True
  | st, op :: ops => (applyOp st op).2 = .ok () ∧ allOk (applyOp st op).1 ops

/-- The tenant scope an append operation runs under. -/
def opScope : AppendOp → String × String
  | .groups p r _ => (p, r)
  | .streams p r _ _ => (p, r)
  | .events _ p r _ _ _ => (p, r)

/-- A string free of the colon character, so that gluing with the `::`
separator is injective. -/
def colonFree (s : String) : Prop := ':' ∉ s.data

instance (s : String) : Decidable (colonFree s) :=
  inferInstanceAs (Decidable (':' ∉ s.data))

/-- Every token id the state knows is below the counter; the initial state
satisfies this and every operation preserves it. -/
def wfTokens (st : State) : Prop := ∀ t : Nat, st.tokens t ≠ none → t < st.tokenCounter

/-- Agreement of two states on every state component a read operation under
the scope (profile, region) can depend on. -/
def scopeAgree (profile region : String) (st st2 : State) : Prop :=
  st2.rawGroups (scopeKey profile region) = st.rawGroups (scopeKey profile region) ∧
  (∀ g, st2.rawStreams (streamKey profile region g) =
    st.rawStreams (streamKey profile region g)) ∧
  (∀ g s, st2.rawEvents (eventKey profile region g s) =
    st.rawEvents (eventKey profile region g s)) ∧
  st2.tokens = st.tokens ∧
  st2.tokenCounter = st.tokenCounter

/-- The query window exactly as the C5 claim text words it: the slice from
start = length − limit − offset to end = length − offset, both clamped to
the interval from 0 to the event count. -/
def claimWindow (evs : List OutputLogEvent) (lim off : Int) : List OutputLogEvent :=
  (evs.take (max 0 (min ((evs.length : Int) - off) (evs.length : Int))).toNat).drop
    (max 0 (min ((evs.length : Int) - lim - off) (evs.length : Int))).toNat

/-- Shorthand for building a concrete well-formed event. -/
def mkEvent (t i : Int) (m : String) : OutputLogEvent :=
  { timestamp := t, message := m, ingestionTime := i }

/-- Scenario: one scope, one group, one stream, ingestionDelay 1ms. -/
def c1State0 : State :=
  populateStreams (populateGroups (initialState 1) "p" "r" [{ logGroupName := "g" }])
    "p" "r" "g" [{ logStreamName := "s" }]

/-- Scenario, first ingest: timestamps 1 and 5, ingestion time 50.  This
bootstraps firstEventTimestamp to 1 and lastEventTimestamp to 5. -/
def c1State1 : State :=
  (populateEvents c1State0 60 "p" "r" "g" "s" [mkEvent 1 50 "a", mkEvent 5 50 "b"]).1

/-- Scenario, second ingest at now = 1000000: timestamps 9 and 100,
ingestion time 1000.  Both 9 and 100 satisfy every visibility condition. -/
def c1State2 : State :=
  (populateEvents c1State1 1000000 "p" "r" "g" "s" [mkEvent 9 1000 "c", mkEvent 100 1000 "d"]).1

/-- The stream record as it stands in c1State1 after the first ingest. -/
def c1StreamRec : LogStream :=
  { logStreamName := "s", firstEventTimestamp := 1, lastEventTimestamp := 5,
    lastIngestionTime := 50 }

/-- Scenario for C6: one known scope whose group list holds one group, and
one outstanding pagination token (id 0 at offset 1). -/
def c6State : State where
  rawGroups := mapUpdate (fun _ => none) (scopeKey "p" "r") (some [{ logGroupName := "g" }])
  rawStreams := mapUpdate (fun _ => none) (streamKey "p" "r" "g") (some [])
  rawEvents := fun _ => none
  tokens := tokUpdate (fun _ => none) 0 (some 1)
  tokenCounter := 1
  ingestionDelay := INGESTION_DELAY

/-- Scenario for C7: create a group and a stream, then ingest one batch
given in descending timestamp order. -/
def c7Ops : List AppendOp :=
  [AppendOp.groups "p" "r" [{ logGroupName := "g" }],
   AppendOp.streams "p" "r" "g" [{ logStreamName := "s" }],
   AppendOp.events 60 "p" "r" "g" "s" [mkEvent 5 50 "b", mkEvent 1 50 "a"]]

/-- Scenario for C2: two streams populated in the order lastEventTimestamp
5 then lastEventTimestamp 3. -/
def c2State : State :=
  populateStreams (populateGroups (initialState 0) "p" "r" [{ logGroupName := "g" }])
    "p" "r" "g"
    [{ logStreamName := "s1", lastEventTimestamp := 5 },
     { logStreamName := "s2", lastEventTimestamp := 3 }]

end FakeCloudwatchLogs

namespace FakeCloudwatchLogs

theorem mapUpdate_self {α : Type} (m : String → Option α) (k : String) (v : Option α) :
    mapUpdate m k v k = v := by
  simp [mapUpdate]

theorem mapUpdate_ne {α : Type} (m : String → Option α) (k q : String) (v : Option α)
    (h : q ≠ k) : mapUpdate m k v q = m q := by
  simp [mapUpdate, h]

theorem tokUpdate_ne (m : Nat → Option Int) (k q : Nat) (v : Option Int)
    (h : q ≠ k) : tokUpdate m k v q = m q := by
  simp [tokUpdate, h]

theorem insertCmp_perm {α : Type} (cmp : α → α → Int) (x : α) (l : List α) :
    (insertCmp cmp x l).Perm (x :: l) := by
  induction l with
  | nil => simp [insertCmp]
  | cons y ys ih =>
    simp only [insertCmp]
    split
    · exact List.Perm.refl _
    · exact (ih.cons y).trans (List.Perm.swap x y ys)

theorem foldl_insertCmp_perm {α : Type} (cmp : α → α → Int) (l acc : List α) :
    (l.foldl (fun a x => insertCmp cmp x a) acc).Perm (acc ++ l) := by
  induction l generalizing acc with
  | nil => simp
  | cons x xs ih =>
    simp only [List.foldl_cons]
    refine (ih (insertCmp cmp x acc)).trans ?_
    refine ((insertCmp_perm cmp x acc).append_right xs).trans ?_
    simpa using List.perm_middle.symm

theorem sortCmp_perm {α : Type} (cmp : α → α → Int) (l : List α) :
    (sortCmp cmp l).Perm l := by
  simpa [sortCmp] using foldl_insertCmp_perm cmp l []

theorem mem_sortCmp {α : Type} {cmp : α → α → Int} {l : List α} {a : α} :
    a ∈ sortCmp cmp l ↔ a ∈ l :=
  (sortCmp_perm cmp l).mem_iff

theorem eventCmp_neg_iff {x y : OutputLogEvent} (hx : x.timestamp ≠ 0)
    (hy : y.timestamp ≠ 0) : eventCmp x y < 0 ↔ x.timestamp < y.timestamp := by
  unfold eventCmp
  rw [if_neg hx, if_neg hy]
  split <;> omega

theorem insertCmp_eventCmp_pairwise (x : OutputLogEvent) (l : List OutputLogEvent)
    (hx : x.timestamp ≠ 0) (hl : ∀ e ∈ l, e.timestamp ≠ 0)
    (hs : l.Pairwise fun a b => a.timestamp ≤ b.timestamp) :
    (insertCmp eventCmp x l).Pairwise fun a b => a.timestamp ≤ b.timestamp := by
  induction l with
  | nil => simp [insertCmp]
  | cons y ys ih =>
    have hy : y.timestamp ≠ 0 := hl y (by simp)
    have hys : ∀ e ∈ ys, e.timestamp ≠ 0 := fun e he => hl e (by simp [he])
    rcases List.pairwise_cons.mp hs with ⟨hyall, hsys⟩
    simp only [insertCmp]
    split
    case isTrue h =>
      have hxy : x.timestamp < y.timestamp := (eventCmp_neg_iff hx hy).mp h
      refine List.pairwise_cons.mpr ⟨?_, hs⟩
      intro e he
      rcases List.mem_cons.mp he with rfl | he2
      · exact le_of_lt hxy
      · exact le_trans (le_of_lt hxy) (hyall e he2)
    case isFalse h =>
      have hxy : y.timestamp ≤ x.timestamp := by
        have h2 : ¬ x.timestamp < y.timestamp := fun hc =>
          h ((eventCmp_neg_iff hx hy).mpr hc)
        omega
      refine List.pairwise_cons.mpr ⟨?_, ih hys hsys⟩
      intro e he
      rcases List.mem_cons.mp ((insertCmp_perm eventCmp x ys).mem_iff.mp he) with rfl | he2
      · exact hxy
      · exact hyall e he2

theorem sortCmp_eventCmp_pairwise (l : List OutputLogEvent)
    (hl : ∀ e ∈ l, e.timestamp ≠ 0) :
    (sortCmp eventCmp l).Pairwise fun a b => a.timestamp ≤ b.timestamp := by
  suffices h : ∀ (m acc : List OutputLogEvent), (∀ e ∈ m, e.timestamp ≠ 0) →
      (∀ e ∈ acc, e.timestamp ≠ 0) →
      (acc.Pairwise fun a b => a.timestamp ≤ b.timestamp) →
      ((m.foldl (fun a x => insertCmp eventCmp x a) acc).Pairwise
        fun a b => a.timestamp ≤ b.timestamp) by
    exact h l [] hl (by simp) (by simp)
  intro m
  induction m with
  | nil => intro acc _ _ hp; simpa using hp
  | cons x xs ih =>
    intro acc hm hacc hp
    simp only [List.foldl_cons]
    refine ih _ (fun e he => hm e (by simp [he])) ?_ ?_
    · intro e he
      rcases List.mem_cons.mp ((insertCmp_perm eventCmp x acc).mem_iff.mp he) with rfl | he2
      · exact hm e (by simp)
      · exact hacc e he2
    · exact insertCmp_eventCmp_pairwise x acc (hm x (by simp)) hacc hp

theorem scanEvents_ok_nonzero {l : List OutputLogEvent} {oT oI : Int} {yT : Option Int}
    {res : Int × Int × Option Int} (h : scanEvents l oT oI yT = .ok res) :
    ∀ e ∈ l, e.timestamp ≠ 0 ∧ e.ingestionTime ≠ 0 := by
  induction l generalizing oT oI yT with
  | nil => simp
  | cons e rest ih =>
    intro f hf
    simp only [scanEvents] at h
    by_cases h1 : e.timestamp = 0
    · simp [h1] at h
    by_cases h2 : e.ingestionTime = 0
    · simp [h1, h2] at h
    rw [if_neg h1, if_neg h2] at h
    rcases List.mem_cons.mp hf with rfl | hf2
    · exact ⟨h1, h2⟩
    · exact ih h f hf2

theorem scanEvents_ok_of_nonzero (l : List OutputLogEvent) (oT oI : Int) (yT : Option Int)
    (h : ∀ e ∈ l, e.timestamp ≠ 0 ∧ e.ingestionTime ≠ 0) :
    ∃ res, scanEvents l oT oI yT = .ok res := by
  induction l generalizing oT oI yT with
  | nil => exact ⟨_, rfl⟩
  | cons e rest ih =>
    have he := h e (by simp)
    simp only [scanEvents, if_neg he.1, if_neg he.2]
    exact ih _ _ _ (fun f hf => h f (by simp [hf]))

theorem minOpt_isSome (yT : Option Int) (t : Int) : ∃ v, minOpt yT t = some v := by
  cases yT with
  | none => exact ⟨t, rfl⟩
  | some y =>
    by_cases h : t < y
    · exact ⟨t, by simp [minOpt, h]⟩
    · exact ⟨y, by simp [minOpt, h]⟩

theorem minOpt_spec {yT : Option Int} {t v : Int} (h : minOpt yT t = some v) :
    (v = t ∨ yT = some v) ∧ v ≤ t ∧ (∀ w, yT = some w → v ≤ w) := by
  cases yT with
  | none =>
    simp only [minOpt, Option.some.injEq] at h
    exact ⟨Or.inl h.symm, by omega, by simp⟩
  | some y =>
    simp only [minOpt] at h
    split at h
    case isTrue hlt =>
      injection h with h
      subst h
      exact ⟨Or.inl rfl, le_refl _, fun w hw => by injection hw with hw; omega⟩
    case isFalse hlt =>
      injection h with h
      subst h
      exact ⟨Or.inr rfl, by omega, fun w hw => by injection hw with hw; omega⟩

theorem scanEvents_youngest {l : List OutputLogEvent} {oT oI : Int} {yT : Option Int}
    {o i : Int} {y : Option Int} (h : scanEvents l oT oI yT = .ok (o, i, y)) :
    (∀ v, y = some v →
      ((∃ e ∈ l, e.timestamp = v) ∨ yT = some v) ∧
      (∀ e ∈ l, v ≤ e.timestamp) ∧ (∀ w, yT = some w → v ≤ w)) ∧
    (y = none → yT = none ∧ l = []) := by
  induction l generalizing oT oI yT with
  | nil =>
    simp only [scanEvents, Except.ok.injEq, Prod.mk.injEq] at h
    rcases h with ⟨_, _, rfl⟩
    refine ⟨fun v hv => ⟨Or.inr hv, by simp, fun w hw => ?_⟩, fun hn => ⟨hn, rfl⟩⟩
    rw [hv] at hw
    injection hw with hw
    omega
  | cons e rest ih =>
    simp only [scanEvents] at h
    by_cases h1 : e.timestamp = 0
    · simp [h1] at h
    by_cases h2 : e.ingestionTime = 0
    · simp [h1, h2] at h
    rw [if_neg h1, if_neg h2] at h
    rcases ih h with ⟨ihs, ihn⟩
    rcases minOpt_isSome yT e.timestamp with ⟨u, hu⟩
    rcases minOpt_spec hu with ⟨humem, hute, huw⟩
    constructor
    · intro v hv
      rcases ihs v hv with ⟨hmem, hlb, hinit⟩
      have hvu : v ≤ u := hinit u hu
      refine ⟨?_, ?_, ?_⟩
      · rcases hmem with ⟨f, hf, hfv⟩ | hsome
        · exact Or.inl ⟨f, by simp [hf], hfv⟩
        · rw [hu] at hsome
          injection hsome with hsome
          subst hsome
          rcases humem with hvt | hyv
          · exact Or.inl ⟨e, by simp, hvt.symm⟩
          · exact Or.inr hyv
      · intro f hf
        rcases List.mem_cons.mp hf with rfl | hf2
        · omega
        · exact hlb f hf2
      · intro w hw
        have := huw w hw
        omega
    · intro hn
      rcases ihn hn with ⟨hbad, _⟩
      rw [hu] at hbad
      exact absurd hbad (by simp)

theorem pickTimestamp_gt {now delay li le : Int} {l : List Int} {t : Int}
    (h : pickTimestamp now delay li le l = some t) : le < t := by
  induction l with
  | nil => simp [pickTimestamp] at h
  | cons a as ih =>
    simp only [pickTimestamp] at h
    split at h
    case isTrue hcond =>
      cases h
      exact hcond.2.2
    case isFalse _ => exact ih h

theorem replaceFirst_getElem {α : Type} (p : α → Bool) (v : α) (l : List α) (i : Nat)
    (a : α) (h : l[i]? = some a) :
    (replaceFirst p v l)[i]? = some a ∨
    ((replaceFirst p v l)[i]? = some v ∧ p a = true ∧ l.find? p = some a) := by
  induction l generalizing i with
  | nil => simp at h
  | cons x xs ih =>
    simp only [replaceFirst]
    by_cases hp : p x
    · rw [if_pos hp]
      cases i with
      | zero =>
        simp only [List.getElem?_cons_zero, Option.some.injEq] at h
        subst h
        exact Or.inr ⟨by simp, hp, by simp [List.find?_cons_of_pos _ hp]⟩
      | succ n =>
        simp only [List.getElem?_cons_succ] at h ⊢
        exact Or.inl h
    · rw [if_neg hp]
      cases i with
      | zero =>
        simp only [List.getElem?_cons_zero, Option.some.injEq] at h ⊢
        exact Or.inl h
      | succ n =>
        simp only [List.getElem?_cons_succ] at h ⊢
        rcases ih n h with h1 | ⟨h2, h3, h4⟩
        · exact Or.inl h1
        · exact Or.inr ⟨h2, h3, by simp [List.find?_cons_of_neg _ hp, h4]⟩

theorem sep_split (a : List Char) : ∀ (c b d : List Char),
    ':' ∉ a → ':' ∉ c →
    a ++ ':' :: ':' :: b = c ++ ':' :: ':' :: d → a = c ∧ b = d := by
  induction a with
  | nil =>
    intro c b d _ hc h
    cases c with
    | nil =>
      simp only [List.nil_append, List.cons.injEq] at h
      exact ⟨rfl, h.2.2⟩
    | cons y ys =>
      exfalso
      simp only [List.nil_append, List.cons_append, List.cons.injEq] at h
      exact hc (by rw [← h.1]; simp)
  | cons x xs ih =>
    intro c b d hx hc h
    cases c with
    | nil =>
      exfalso
      simp only [List.cons_append, List.nil_append, List.cons.injEq] at h
      exact hx (by rw [h.1]; simp)
    | cons y ys =>
      simp only [List.cons_append, List.cons.injEq] at h
      have hxs : ':' ∉ xs := fun hm => hx (by simp [hm])
      have hys : ':' ∉ ys := fun hm => hc (by simp [hm])
      rcases ih ys b d hxs hys h.2 with ⟨h1, h2⟩
      exact ⟨by rw [h.1, h1], h2⟩

theorem sepString_data : ("::" : String).data = [':', ':'] := rfl

theorem scopeKey_data (p r : String) :
    (scopeKey p r).data = p.data ++ ':' :: ':' :: r.data := by
  simp [scopeKey, String.data_append, sepString_data]

theorem scopeTail_ne {p1 r1 p2 r2 : String} (hp1 : colonFree p1) (hr1 : colonFree r1)
    (hp2 : colonFree p2) (hr2 : colonFree r2) (hne : (p1, r1) ≠ (p2, r2))
    (x1 x2 : String) :
    scopeKey p1 r1 ++ "::" ++ x1 ≠ scopeKey p2 r2 ++ "::" ++ x2 := by
  intro h
  have hd : p1.data ++ ':' :: ':' :: (r1.data ++ ':' :: ':' :: x1.data) =
      p2.data ++ ':' :: ':' :: (r2.data ++ ':' :: ':' :: x2.data) := by
    have h0 := congrArg String.data h
    simpa [String.data_append, scopeKey_data, sepString_data, List.append_assoc] using h0
  rcases sep_split _ _ _ _ hp1 hp2 hd with ⟨h1, h2⟩
  rcases sep_split _ _ _ _ hr1 hr2 h2 with ⟨h3, _⟩
  exact hne (by rw [String.ext h1, String.ext h3])

theorem scopeKey_ne {p1 r1 p2 r2 : String} (hp1 : colonFree p1) (hr1 : colonFree r1)
    (hp2 : colonFree p2) (hr2 : colonFree r2) (hne : (p1, r1) ≠ (p2, r2)) :
    scopeKey p1 r1 ≠ scopeKey p2 r2 := by
  intro h
  have hd : p1.data ++ ':' :: ':' :: r1.data = p2.data ++ ':' :: ':' :: r2.data := by
    have h0 := congrArg String.data h
    simpa [scopeKey_data] using h0
  rcases sep_split _ _ _ _ hp1 hp2 hd with ⟨h1, h2⟩
  exact hne (by rw [String.ext h1, String.ext h2])

theorem streamKey_scope_ne {p1 r1 p2 r2 : String} (hp1 : colonFree p1) (hr1 : colonFree r1)
    (hp2 : colonFree p2) (hr2 : colonFree r2) (hne : (p1, r1) ≠ (p2, r2))
    (g1 g2 : String) : streamKey p1 r1 g1 ≠ streamKey p2 r2 g2 :=
  scopeTail_ne hp1 hr1 hp2 hr2 hne g1 g2

theorem eventKey_eq_scopeTail (p r g s : String) :
    eventKey p r g s = scopeKey p r ++ "::" ++ (g ++ "::" ++ s) := by
  apply String.ext
  simp [eventKey, streamKey, String.data_append, List.append_assoc]

theorem eventKey_scope_ne {p1 r1 p2 r2 : String} (hp1 : colonFree p1) (hr1 : colonFree r1)
    (hp2 : colonFree p2) (hr2 : colonFree r2) (hne : (p1, r1) ≠ (p2, r2))
    (g1 s1 g2 s2 : String) : eventKey p1 r1 g1 s1 ≠ eventKey p2 r2 g2 s2 := by
  rw [eventKey_eq_scopeTail, eventKey_eq_scopeTail]
  exact scopeTail_ne hp1 hr1 hp2 hr2 hne _ _

theorem jsSlice_window (l : List OutputLogEvent) (lim off : Int) :
    jsSlice l
      (if (l.length : Int) - lim - off < 0 then 0 else (l.length : Int) - lim - off)
      (if (l.length : Int) - off < 0 then 0 else (l.length : Int) - off) =
    claimWindow l lim off := by
  unfold jsSlice claimWindow
  have hA : (if (if (l.length : Int) - off < 0 then 0 else (l.length : Int) - off) < 0 then
        max ((l.length : Int) + (if (l.length : Int) - off < 0 then 0
          else (l.length : Int) - off)) 0
      else min (if (l.length : Int) - off < 0 then 0 else (l.length : Int) - off)
        (l.length : Int)).toNat =
      (max 0 (min ((l.length : Int) - off) (l.length : Int))).toNat := by
    split_ifs <;> omega
  have hB : (if (if (l.length : Int) - lim - off < 0 then 0
          else (l.length : Int) - lim - off) < 0 then
        max ((l.length : Int) + (if (l.length : Int) - lim - off < 0 then 0
          else (l.length : Int) - lim - off)) 0
      else min (if (l.length : Int) - lim - off < 0 then 0
        else (l.length : Int) - lim - off) (l.length : Int)).toNat =
      (max 0 (min ((l.length : Int) - lim - off) (l.length : Int))).toNat := by
    split_ifs <;> omega
  rw [hA, hB]

theorem markGroupStream_rawStreams_ne (key : String) (s : State) (g : LogGroup)
    (k : String) (h : k ≠ key ++ "::" ++ g.logGroupName) :
    (markGroupStream key s g).rawStreams k = s.rawStreams k := by
  unfold markGroupStream
  split
  · rfl
  · simp [mapUpdate, h]

theorem markGroupStream_mono (key : String) (s : State) (g : LogGroup) (k : String)
    (h : s.rawStreams k ≠ none) : (markGroupStream key s g).rawStreams k ≠ none := by
  unfold markGroupStream
  split
  · exact h
  · by_cases hk : k = key ++ "::" ++ g.logGroupName
    · simp [mapUpdate, hk]
    · simpa [mapUpdate, hk] using h

theorem markGroupStream_marks (key : String) (s : State) (g : LogGroup) :
    (markGroupStream key s g).rawStreams (key ++ "::" ++ g.logGroupName) ≠ none := by
  unfold markGroupStream
  cases hm : s.rawStreams (key ++ "::" ++ g.logGroupName) with
  | some l => simp [hm]
  | none => simp [hm, mapUpdate]

theorem foldl_mark_mono (key : String) (gs : List LogGroup) (s : State) (k : String)
    (h : s.rawStreams k ≠ none) :
    (gs.foldl (markGroupStream key) s).rawStreams k ≠ none := by
  induction gs generalizing s with
  | nil => exact h
  | cons g rest ih => exact ih _ (markGroupStream_mono key s g k h)

theorem foldl_mark_marks (key : String) (gs : List LogGroup) (g : LogGroup)
    (hg : g ∈ gs) (s : State) :
    (gs.foldl (markGroupStream key) s).rawStreams (key ++ "::" ++ g.logGroupName) ≠ none := by
  induction gs generalizing s with
  | nil => simp at hg
  | cons g0 rest ih =>
    rcases List.mem_cons.mp hg with rfl | h2
    · exact foldl_mark_mono key rest _ _ (markGroupStream_marks key s g)
    · exact ih h2 _

/-- C4: with a well-formed request (nonempty group name, default orderBy),
describeLogStreams on a stream bucket that was never created fails with
the not-found error; a bucket recorded as empty yields an empty success
result; populateStreams with an empty batch still records the bucket; and
populateGroups records a bucket for every appended group. -/
theorem c4_unknown_group_vs_empty_group (st : State) (p r g : String) (lim : Int)
    (tok : Option Nat) (hg : g ≠ "") :
    (st.rawStreams (streamKey p r g) = none →
      describeLogStreams st p r { logGroupName := g, limit := lim, nextToken := tok } =
        .error "The specified log group does not exist.") ∧
    (st.rawStreams (streamKey p r g) = some [] →
      (describeLogStreams st p r { logGroupName := g, limit := lim }).map
          (fun x => x.1.logStreams) = .ok []) ∧
    ((populateStreams st p r g []).rawStreams (streamKey p r g) =
      some ((st.rawStreams (streamKey p r g)).getD [])) ∧
    (∀ (gs : List LogGroup) (grp : LogGroup), grp ∈ gs →
      (populateGroups st p r gs).rawStreams (streamKey p r grp.logGroupName) ≠ none) := by
  refine ⟨?_, ?_, ?_, ?_⟩
  · intro h
    simp [describeLogStreams, hg, h]
  · intro h
    simp [describeLogStreams, hg, h, paginate, paginateGo, jsSlice, sortCmp,
      Except.bind, Except.map]
    split <;> split <;> rfl
  · simp [populateStreams, mapUpdate]
  · intro gs grp hmem
    exact foldl_mark_marks (scopeKey p r) gs grp hmem _

/-- C2 amended: with orderBy = LastEventTime, descending unset and no name
prefix, describeLogStreams applies no reordering at all: the returned page
is the stored population-order bucket, sliced by the default pagination
window, so the result is ascending by lastEventTimestamp only when the
stored order already is. -/
theorem c2_lastEventTime_insertion_order (st : State) (p r g : String)
    (bucket : List LogStream) (lim : Int) (hg : g ≠ "")
    (hb : st.rawStreams (streamKey p r g) = some bucket) :
    (describeLogStreams st p r
        { logGroupName := g, orderBy := "LastEventTime", limit := lim }).map
      (fun x => x.1.logStreams) =
      .ok (jsSlice bucket 0 (if lim = 0 then 50 else lim)) := by
  simp [describeLogStreams, hg, hb, paginate, paginateGo, Except.bind, Except.map]
  split <;> split <;> rfl

/-- C5 amended: for every getLogEvents call on a stream key that is present
in the store and whose token (when one is given) resolves, the returned
events are exactly the window from length − limit − offset to
length − offset, clamped to the list, over the (optionally time-filtered)
list, and two fresh tokens are always minted and registered — a forward
one at offset − limit and a backward one at offset + limit — even when
the corresponding page would be empty. -/
theorem c5_window_and_two_tokens (st : State) (p r : String)
    (body : GetLogEventsRequest) (events0 : List OutputLogEvent) (off : Int)
    (hev : st.rawEvents (eventKey p r body.logGroupName body.logStreamName) = some events0)
    (htok : (body.nextToken = none ∧ off = 0) ∨
      (∃ t, body.nextToken = some t ∧ st.tokens t = some off)) :
    ∃ st1 : State,
      getLogEvents st p r body =
        .ok ({ events := claimWindow (filteredEvents body events0)
                 (if body.limit = 0 then 10000 else body.limit) off,
               nextForwardToken := some st.tokenCounter,
               nextBackwardToken := some (st.tokenCounter + 1) }, st1) ∧
      st1.tokens st.tokenCounter =
        some (off - (if body.limit = 0 then 10000 else body.limit)) ∧
      st1.tokens (st.tokenCounter + 1) =
        some (off + (if body.limit = 0 then 10000 else body.limit)) ∧
      st.tokenCounter ≠ st.tokenCounter + 1 := by
  rcases htok with ⟨hnone, hoff0⟩ | ⟨t, htokeq, hofft⟩
  · subst hoff0
    have heq : getLogEvents st p r body =
        .ok ({ events := claimWindow (filteredEvents body events0)
                 (if body.limit = 0 then 10000 else body.limit) 0,
               nextForwardToken := some st.tokenCounter,
               nextBackwardToken := some (st.tokenCounter + 1) },
             (mintToken (mintToken st
                 (0 + -(if body.limit = 0 then 10000 else body.limit))).2
               (0 + (if body.limit = 0 then 10000 else body.limit))).2) := by
      simp only [getLogEvents, hev, hnone, Except.map, jsSlice_window]
      simp [mintToken]
    refine ⟨_, heq, ?_, ?_, by omega⟩
    · simp [mintToken, tokUpdate]
    · simp [mintToken, tokUpdate]
  · have heq : getLogEvents st p r body =
        .ok ({ events := claimWindow (filteredEvents body events0)
                 (if body.limit = 0 then 10000 else body.limit) off,
               nextForwardToken := some st.tokenCounter,
               nextBackwardToken := some (st.tokenCounter + 1) },
             (mintToken (mintToken (consumeToken st t)
                 (off + -(if body.limit = 0 then 10000 else body.limit))).2
               (off + (if body.limit = 0 then 10000 else body.limit))).2) := by
      simp only [getLogEvents, hev, htokeq, hofft, Except.map, jsSlice_window]
      simp [mintToken, consumeToken]
    refine ⟨_, heq, ?_, ?_, by omega⟩
    · simp [mintToken, tokUpdate, consumeToken]
      omega
    · simp [mintToken, tokUpdate, consumeToken]

/-- C10: when appendEvents is rejected by the firstEventTimestamp
consistency check, the batch has already been merged and re-sorted into
the stream's stored event list — every event of the batch is in the
stored list, so later queries see it — while every other component of the
state, the stream metadata in rawStreams in particular, is exactly as
before the call. -/
theorem c10_rejection_after_merge (st : State) (now : Int) (p r g s : String)
    (evs : List OutputLogEvent) (bucket : List LogStream) (stream : LogStream)
    (oT oI : Int) (yT : Option Int)
    (hne : evs.length ≠ 0)
    (hbucket : st.rawStreams (streamKey p r g) = some bucket)
    (hfind : bucket.find? (fun x => x.logStreamName == s) = some stream)
    (hscan : scanEvents (sortCmp eventCmp ((st.rawEvents (eventKey p r g s)).getD [] ++ evs))
        0 0 none = .ok (oT, oI, yT))
    (hfet : stream.firstEventTimestamp ≠ 0)
    (hmis : yT ≠ some stream.firstEventTimestamp) :
    (populateEvents st now p r g s evs).2 =
      .error "Cannot populateEvents() that are younger then existing events" ∧
    (populateEvents st now p r g s evs).1.rawEvents =
      mapUpdate st.rawEvents (eventKey p r g s)
        (some (sortCmp eventCmp ((st.rawEvents (eventKey p r g s)).getD [] ++ evs))) ∧
    (populateEvents st now p r g s evs).1.rawStreams = st.rawStreams ∧
    (populateEvents st now p r g s evs).1.rawGroups = st.rawGroups ∧
    (populateEvents st now p r g s evs).1.tokens = st.tokens ∧
    (populateEvents st now p r g s evs).1.tokenCounter = st.tokenCounter ∧
    ∀ e ∈ evs, e ∈ sortCmp eventCmp ((st.rawEvents (eventKey p r g s)).getD [] ++ evs) := by
  refine ⟨?_, ?_, ?_, ?_, ?_, ?_,
    fun e he => mem_sortCmp.mpr (List.mem_append_right _ he)⟩ <;>
  · simp only [populateEvents, if_neg hne, hbucket, hfind, hscan]
    rw [if_pos ⟨hfet, hmis⟩]

/-- C3 corrected: over a stream whose recorded firstEventTimestamp is the
value T attained as the minimum of the accumulated events, a further
appendEvents batch with minimum timestamp m is rejected by the
consistency check exactly when m < T: the check compares the minimum of
the merged accumulated list against T, so a batch whose minimum is
greater than T (hence different from it) still passes. -/
theorem c3_min_check (st : State) (now : Int) (p r g s : String)
    (old evs : List OutputLogEvent) (bucket : List LogStream) (stream : LogStream)
    (T m : Int)
    (hold : st.rawEvents (eventKey p r g s) = some old)
    (hbucket : st.rawStreams (streamKey p r g) = some bucket)
    (hfind : bucket.find? (fun x => x.logStreamName == s) = some stream)
    (hT : stream.firstEventTimestamp = T)
    (hwf : ∀ e ∈ old ++ evs, e.timestamp ≠ 0 ∧ e.ingestionTime ≠ 0)
    (hne : evs ≠ [])
    (holdlb : ∀ e ∈ old, T ≤ e.timestamp)
    (holdmem : ∃ e ∈ old, e.timestamp = T)
    (hmlb : ∀ e ∈ evs, m ≤ e.timestamp)
    (hmmem : ∃ e ∈ evs, e.timestamp = m) :
    ((populateEvents st now p r g s evs).2 =
      .error "Cannot populateEvents() that are younger then existing events") ↔ m < T := by
  have hT0 : T ≠ 0 := by
    rcases holdmem with ⟨e, he, hev⟩
    have h1 := (hwf e (List.mem_append_left _ he)).1
    omega
  have hnel : evs.length ≠ 0 := by simpa [List.length_eq_zero] using hne
  have hwfm : ∀ e ∈ sortCmp eventCmp (old ++ evs),
      e.timestamp ≠ 0 ∧ e.ingestionTime ≠ 0 := fun e he => hwf e (mem_sortCmp.mp he)
  rcases scanEvents_ok_of_nonzero (sortCmp eventCmp (old ++ evs)) 0 0 none hwfm with
    ⟨⟨oT, oI, yT⟩, hscan⟩
  rcases scanEvents_youngest hscan with ⟨hchar, hnonechar⟩
  obtain ⟨y, hy⟩ : ∃ y, yT = some y := by
    cases yT with
    | some y => exact ⟨y, rfl⟩
    | none =>
      exfalso
      rcases hnonechar rfl with ⟨_, hml⟩
      rcases hmmem with ⟨e, he, _⟩
      have hmem : e ∈ sortCmp eventCmp (old ++ evs) :=
        mem_sortCmp.mpr (List.mem_append_right _ he)
      rw [hml] at hmem
      simp at hmem
  rcases hchar y hy with ⟨hymem, hylb, _⟩
  have hymem2 : ∃ e ∈ old ++ evs, e.timestamp = y := by
    rcases hymem with ⟨e, he, hev⟩ | h2
    · exact ⟨e, mem_sortCmp.mp he, hev⟩
    · cases h2
  have hylb2 : ∀ e ∈ old ++ evs, y ≤ e.timestamp :=
    fun e he => hylb e (mem_sortCmp.mpr he)
  have hyT : y ≤ T := by
    rcases holdmem with ⟨e, he, hev⟩
    have h2 := hylb2 e (List.mem_append_left _ he)
    omega
  have hym : y ≤ m := by
    rcases hmmem with ⟨e, he, hev⟩
    have h2 := hylb2 e (List.mem_append_right _ he)
    omega
  have hyge : T ≤ y ∨ m ≤ y := by
    rcases hymem2 with ⟨e, he, hev⟩
    rcases List.mem_append.mp he with h1 | h2
    · exact Or.inl (hev ▸ holdlb e h1)
    · exact Or.inr (hev ▸ hmlb e h2)
  have hstep : (populateEvents st now p r g s evs).2 =
      if stream.firstEventTimestamp ≠ 0 ∧ yT ≠ some stream.firstEventTimestamp then
        Except.error "Cannot populateEvents() that are younger then existing events"
      else Except.ok () := by
    simp only [populateEvents, if_neg hnel, hold, Option.getD_some, hbucket, hfind, hscan]
    split <;> simp_all
  rw [hstep, hT, hy]
  constructor
  · intro herr
    split at herr
    case isTrue hcond =>
      rcases hcond with ⟨_, hyne⟩
      have hyT' : y ≠ T := fun hcontra => hyne (by rw [hcontra])
      rcases hyge with h1 | h2 <;> omega
    case isFalse => exact absurd herr (by simp)
  · intro hlt
    rw [if_pos ?side]
    case side =>
      refine ⟨hT0, ?_⟩
      intro hcontra
      injection hcontra with hcontra
      omega

theorem updateStreamMeta_lastEventTimestamp_mono (delay now oT oI : Int)
    (yT : Option Int) (tss : List Int) (stream : LogStream)
    (h : stream.lastEventTimestamp ≠ 0) :
    stream.lastEventTimestamp ≤
      (updateStreamMeta delay now oT oI yT tss stream).lastEventTimestamp := by
  by_cases hfet : stream.firstEventTimestamp = 0 <;>
  · simp only [updateStreamMeta, hfet, ite_true, ite_false, if_neg h]
    cases hp : pickTimestamp now delay oI stream.lastEventTimestamp tss with
    | some t =>
      have h3 := pickTimestamp_gt hp
      simp [hp]
      omega
    | none => simp [hp]

/-- C8: once a stream record's lastEventTimestamp is set (truthy), any
further appendEvents call — with any arguments, whether it succeeds or
throws — leaves that record's lastEventTimestamp equal or strictly
larger; this holds for every record position of every bucket. -/
theorem c8_lastEventTimestamp_monotone (st : State) (now : Int) (p r g s : String)
    (evs : List OutputLogEvent) (key : String) (i : Nat) (s0 : LogStream)
    (hs0 : (st.rawStreams key).bind (fun l => l[i]?) = some s0)
    (hset : s0.lastEventTimestamp ≠ 0) :
    ∃ s1, ((populateEvents st now p r g s evs).1.rawStreams key).bind (fun l => l[i]?) =
        some s1 ∧ s0.lastEventTimestamp ≤ s1.lastEventTimestamp := by
  by_cases hlen : evs.length = 0
  · exact ⟨s0, by simp only [populateEvents, if_pos hlen]; exact hs0, le_refl _⟩
  cases hb : st.rawStreams (streamKey p r g) with
  | none => exact ⟨s0, by simp only [populateEvents, if_neg hlen, hb]; exact hs0, le_refl _⟩
  | some bucket =>
    cases hf : bucket.find? (fun x => x.logStreamName == s) with
    | none =>
      exact ⟨s0, by simp only [populateEvents, if_neg hlen, hb, hf]; exact hs0, le_refl _⟩
    | some stream =>
      cases hsc : scanEvents (sortCmp eventCmp
          ((st.rawEvents (eventKey p r g s)).getD [] ++ evs)) 0 0 none with
      | error msg =>
        exact ⟨s0, by simp only [populateEvents, if_neg hlen, hb, hf, hsc]; exact hs0,
          le_refl _⟩
      | ok res =>
        obtain ⟨oT, oI, yT⟩ := res
        by_cases hcond : stream.firstEventTimestamp ≠ 0 ∧
            yT ≠ some stream.firstEventTimestamp
        · exact ⟨s0,
            by simp only [populateEvents, if_neg hlen, hb, hf, hsc, if_pos hcond]; exact hs0,
            le_refl _⟩
        · by_cases hkey : key = streamKey p r g
          · subst hkey
            rw [hb] at hs0
            simp only [Option.some_bind] at hs0
            rcases replaceFirst_getElem (fun x => x.logStreamName == s)
                (updateStreamMeta st.ingestionDelay now oT oI yT
                  ((sortCmp jsDefaultCmp ((sortCmp eventCmp
                    ((st.rawEvents (eventKey p r g s)).getD [] ++ evs)).map
                      (fun e => e.timestamp))).reverse) stream)
                bucket i s0 hs0 with h1 | ⟨h2, h3, h4⟩
            · refine ⟨s0, ?_, le_refl _⟩
              simp only [populateEvents, if_neg hlen, hb, hf, hsc, if_neg hcond,
                mapUpdate_self, Option.some_bind]
              exact h1
            · rw [hf] at h4
              injection h4 with h4
              refine ⟨updateStreamMeta st.ingestionDelay now oT oI yT
                  ((sortCmp jsDefaultCmp ((sortCmp eventCmp
                    ((st.rawEvents (eventKey p r g s)).getD [] ++ evs)).map
                      (fun e => e.timestamp))).reverse) stream, ?_, ?_⟩
              · simp only [populateEvents, if_neg hlen, hb, hf, hsc, if_neg hcond,
                  mapUpdate_self, Option.some_bind]
                exact h2
              · rw [h4]
                exact updateStreamMeta_lastEventTimestamp_mono _ _ _ _ _ _ _
                  (h4 ▸ hset)
          · refine ⟨s0, ?_, le_refl _⟩
            simp only [populateEvents, if_neg hlen, hb, hf, hsc, if_neg hcond]
            rw [mapUpdate_ne _ _ _ _ hkey]
            exact hs0

theorem markGroupStream_rawEvents (key : String) (s : State) (g : LogGroup) :
    (markGroupStream key s g).rawEvents = s.rawEvents := by
  unfold markGroupStream
  split <;> rfl

theorem foldl_mark_rawEvents (key : String) (gs : List LogGroup) (s : State) :
    (gs.foldl (markGroupStream key) s).rawEvents = s.rawEvents := by
  induction gs generalizing s with
  | nil => rfl
  | cons g rest ih => rw [List.foldl_cons, ih, markGroupStream_rawEvents]

theorem populateGroups_rawEvents (st : State) (p r : String) (gs : List LogGroup) :
    (populateGroups st p r gs).rawEvents = st.rawEvents := by
  simp only [populateGroups]
  rw [foldl_mark_rawEvents]

theorem populateEvents_sorted_preserved (st : State) (now : Int) (p r g s : String)
    (evs : List OutputLogEvent)
    (hst : ∀ k l, st.rawEvents k = some l →
      l.Pairwise fun a b => a.timestamp ≤ b.timestamp)
    (hok : (populateEvents st now p r g s evs).2 = .ok ()) :
    ∀ k l, (populateEvents st now p r g s evs).1.rawEvents k = some l →
      l.Pairwise fun a b => a.timestamp ≤ b.timestamp := by
  by_cases hlen : evs.length = 0
  · intro k l hl
    rw [show (populateEvents st now p r g s evs).1 = st by
      simp [populateEvents, hlen]] at hl
    exact hst k l hl
  cases hb : st.rawStreams (streamKey p r g) with
  | none => simp [populateEvents, hlen, hb] at hok
  | some bucket =>
    cases hf : bucket.find? (fun x => x.logStreamName == s) with
    | none => simp [populateEvents, hlen, hb, hf] at hok
    | some stream =>
      cases hsc : scanEvents (sortCmp eventCmp
          ((st.rawEvents (eventKey p r g s)).getD [] ++ evs)) 0 0 none with
      | error msg => simp [populateEvents, hlen, hb, hf, hsc] at hok
      | ok res =>
        obtain ⟨oT, oI, yT⟩ := res
        by_cases hcond : stream.firstEventTimestamp ≠ 0 ∧
            yT ≠ some stream.firstEventTimestamp
        · simp [populateEvents, hlen, hb, hf, hsc, hcond] at hok
        · intro k l hl
          have hnz := scanEvents_ok_nonzero hsc
          by_cases hk : k = eventKey p r g s
          · subst hk
            rw [show (populateEvents st now p r g s evs).1.rawEvents (eventKey p r g s) =
                some (sortCmp eventCmp ((st.rawEvents (eventKey p r g s)).getD [] ++ evs)) by
              simp only [populateEvents, if_neg hlen, hb, hf, hsc, if_neg hcond]
              exact mapUpdate_self _ _ _] at hl
            injection hl with hl
            subst hl
            exact sortCmp_eventCmp_pairwise _
              (fun e he => (hnz e (mem_sortCmp.mpr he)).1)
          · rw [show (populateEvents st now p r g s evs).1.rawEvents k = st.rawEvents k by
              simp only [populateEvents, if_neg hlen, hb, hf, hsc, if_neg hcond]
              exact mapUpdate_ne _ _ _ _ hk] at hl
            exact hst k l hl

/-- C7: starting from the freshly constructed store, after any sequence of
append operations in which every appendEvents call succeeds, every stored
event list is sorted ascending by timestamp (each appendEvents re-sorts
the whole merged list, and the other appends never touch event lists). -/
theorem c7_events_sorted_after_appends (delayOption : Int) (ops : List AppendOp)
    (h : allOk (initialState delayOption) ops) :
    ∀ k l, (applyOps (initialState delayOption) ops).rawEvents k = some l →
      l.Pairwise fun a b => a.timestamp ≤ b.timestamp := by
  suffices hgen : ∀ (ops2 : List AppendOp) (st : State),
      (∀ k l, st.rawEvents k = some l → l.Pairwise fun a b => a.timestamp ≤ b.timestamp) →
      allOk st ops2 →
      ∀ k l, (applyOps st ops2).rawEvents k = some l →
        l.Pairwise fun a b => a.timestamp ≤ b.timestamp by
    refine hgen ops (initialState delayOption) ?_ h
    intro k l hl
    simp [initialState] at hl
  intro ops2
  induction ops2 with
  | nil =>
    intro st hst _ k l hl
    exact hst k l (by simpa [applyOps] using hl)
  | cons op rest ih =>
    intro st hst hok
    rcases hok with ⟨hop, hrest⟩
    have hstep : ∀ k l, (applyOp st op).1.rawEvents k = some l →
        l.Pairwise fun a b => a.timestamp ≤ b.timestamp := by
      cases op with
      | groups p r gs =>
        intro k l hl
        rw [show (applyOp st (.groups p r gs)).1.rawEvents = st.rawEvents from
          populateGroups_rawEvents st p r gs] at hl
        exact hst k l hl
      | streams p r g ss =>
        intro k l hl
        exact hst k l hl
      | events now p r g s evs =>
        exact populateEvents_sorted_preserved st now p r g s evs hst hop
    have hsplit : applyOps st (op :: rest) = applyOps (applyOp st op).1 rest := by
      simp [applyOps]
    rw [hsplit]
    exact ih _ hstep hrest

theorem mintToken_tokens_ne (st : State) (off : Int) (u : Nat)
    (hu : u < st.tokenCounter) : (mintToken st off).2.tokens u = st.tokens u := by
  have h : u ≠ st.tokenCounter := by omega
  simp [mintToken, tokUpdate, h]

theorem mintToken_counter (st : State) (off : Int) :
    (mintToken st off).2.tokenCounter = st.tokenCounter + 1 := rfl

theorem consumeToken_tokens_self (st : State) (t : Nat) :
    (consumeToken st t).tokens t = none := by
  simp [consumeToken, tokUpdate]

theorem paginateGo_tokens_ne {α : Type} (st : State) (l : List α) (off lim : Int)
    (u : Nat) (hu : u < st.tokenCounter) :
    (paginateGo st l off lim).2.tokens u = st.tokens u := by
  simp only [paginateGo]
  split <;> split <;> first
  | exact mintToken_tokens_ne st _ u hu
  | rfl

/-- C6 amended: pagination tokens are single-use for every call that
reaches token resolution (known scope, known group bucket with valid
parameters, known stream key): presenting an unknown or already-consumed
token fails with the invalid-token error, and a successful call that
presented a token has deleted it from the resulting state, so presenting
it again fails.  Calls that short-circuit earlier (unknown scope, group
or stream) return without inspecting the token. -/
theorem c6_tokens_single_use (st : State) (p r : String) (t : Nat) (hwf : wfTokens st) :
    (∀ (body : DescribeLogGroupsRequest) (gs : List LogGroup),
      st.rawGroups (scopeKey p r) = some gs → body.nextToken = some t →
      st.tokens t = none →
      describeLogGroups st p r body = .error ("invalid nextToken: " ++ toString t)) ∧
    (∀ (body : DescribeLogStreamsRequest) (bucket : List LogStream),
      st.rawStreams (streamKey p r body.logGroupName) = some bucket →
      body.logGroupName ≠ "" →
      (body.orderBy = "" ∨ body.orderBy = "LogStreamName" ∨
        (body.orderBy = "LastEventTime" ∧ body.logStreamNamePfx = "")) →
      body.nextToken = some t → st.tokens t = none →
      describeLogStreams st p r body = .error ("invalid nextToken: " ++ toString t)) ∧
    (∀ (body : GetLogEventsRequest) (evs : List OutputLogEvent),
      st.rawEvents (eventKey p r body.logGroupName body.logStreamName) = some evs →
      body.nextToken = some t → st.tokens t = none →
      getLogEvents st p r body = .error ("invalid nextToken: " ++ toString t)) ∧
    (∀ (body : DescribeLogGroupsRequest) (gs : List LogGroup) (off : Int)
      (res : DescribeLogGroupsResponse) (st1 : State),
      st.rawGroups (scopeKey p r) = some gs → body.nextToken = some t →
      st.tokens t = some off →
      describeLogGroups st p r body = .ok (res, st1) → st1.tokens t = none) ∧
    (∀ (body : DescribeLogStreamsRequest) (bucket : List LogStream) (off : Int)
      (res : DescribeLogStreamsResponse) (st1 : State),
      st.rawStreams (streamKey p r body.logGroupName) = some bucket →
      body.logGroupName ≠ "" →
      (body.orderBy = "" ∨ body.orderBy = "LogStreamName" ∨
        (body.orderBy = "LastEventTime" ∧ body.logStreamNamePfx = "")) →
      body.nextToken = some t → st.tokens t = some off →
      describeLogStreams st p r body = .ok (res, st1) → st1.tokens t = none) ∧
    (∀ (body : GetLogEventsRequest) (evs : List OutputLogEvent) (off : Int)
      (res : GetLogEventsResponse) (st1 : State),
      st.rawEvents (eventKey p r body.logGroupName body.logStreamName) = some evs →
      body.nextToken = some t → st.tokens t = some off →
      getLogEvents st p r body = .ok (res, st1) → st1.tokens t = none) := by
  have hlt : ∀ off : Int, st.tokens t = some off → t < st.tokenCounter := by
    intro off hoff
    exact hwf t (by rw [hoff]; simp)
  refine ⟨?_, ?_, ?_, ?_, ?_, ?_⟩
  · intro body gs hg htk hnone
    simp [describeLogGroups, hg, htk, hnone, paginate, Except.map]
  · intro body bucket hb hg hord htk hnone
    rcases hord with h1 | h1 | ⟨h1, h2⟩ <;>
      simp [describeLogStreams, hb, hg, h1, htk, hnone, paginate, Except.bind,
        Except.map, *]
  · intro body evs hev htk hnone
    simp [getLogEvents, hev, htk, hnone, Except.map]
  · intro body gs off res st1 hg htk hoff hres
    simp only [describeLogGroups, hg, htk, hoff, paginate, Except.map,
      Except.ok.injEq, Prod.mk.injEq] at hres
    rcases hres with ⟨_, h2⟩
    subst h2
    rw [paginateGo_tokens_ne (consumeToken st t) gs off body.limit t
      (by simpa [consumeToken] using hlt off hoff)]
    exact consumeToken_tokens_self st t
  · intro body bucket off res st1 hb hg hord htk hoff hres
    have hgoal : ∀ (l2 : List LogStream),
        (paginateGo (consumeToken st t) l2 off body.limit).2 = st1 →
        st1.tokens t = none := by
      intro l2 h2
      rw [← h2]
      rw [paginateGo_tokens_ne (consumeToken st t) l2 off body.limit t
        (by simpa [consumeToken] using hlt off hoff)]
      exact consumeToken_tokens_self st t
    rcases hord with h1 | h1 | ⟨h1, h2⟩ <;>
      · simp [describeLogStreams, hb, hg, h1, htk, hoff, paginate, Except.bind,
          Except.map, *] at hres
        exact hgoal _ hres.2
  · intro body evs off res st1 hev htk hoff hres
    simp only [getLogEvents, hev, htk, hoff, Except.map, Except.ok.injEq,
      Prod.mk.injEq] at hres
    rcases hres with ⟨_, h2⟩
    subst h2
    have ht1 : t < (mintToken (consumeToken st t)
        (off + -(if body.limit = 0 then 10000 else body.limit))).2.tokenCounter := by
      rw [mintToken_counter]
      have := hlt off hoff
      simp only [consumeToken]
      omega
    rw [mintToken_tokens_ne _ _ t ht1]
    rw [mintToken_tokens_ne _ _ t (by simpa [consumeToken] using hlt off hoff)]
    exact consumeToken_tokens_self st t

theorem markGroupStream_rawGroups (key : String) (s : State) (g : LogGroup) :
    (markGroupStream key s g).rawGroups = s.rawGroups := by
  unfold markGroupStream
  split <;> rfl

theorem markGroupStream_tokens (key : String) (s : State) (g : LogGroup) :
    (markGroupStream key s g).tokens = s.tokens := by
  unfold markGroupStream
  split <;> rfl

theorem markGroupStream_counter (key : String) (s : State) (g : LogGroup) :
    (markGroupStream key s g).tokenCounter = s.tokenCounter := by
  unfold markGroupStream
  split <;> rfl

theorem foldl_mark_rawGroups (key : String) (gs : List LogGroup) (s : State) :
    (gs.foldl (markGroupStream key) s).rawGroups = s.rawGroups := by
  induction gs generalizing s with
  | nil => rfl
  | cons g rest ih => rw [List.foldl_cons, ih, markGroupStream_rawGroups]

theorem foldl_mark_tokens (key : String) (gs : List LogGroup) (s : State) :
    (gs.foldl (markGroupStream key) s).tokens = s.tokens := by
  induction gs generalizing s with
  | nil => rfl
  | cons g rest ih => rw [List.foldl_cons, ih, markGroupStream_tokens]

theorem foldl_mark_counter (key : String) (gs : List LogGroup) (s : State) :
    (gs.foldl (markGroupStream key) s).tokenCounter = s.tokenCounter := by
  induction gs generalizing s with
  | nil => rfl
  | cons g rest ih => rw [List.foldl_cons, ih, markGroupStream_counter]

theorem foldl_mark_rawStreams_ne (key : String) (gs : List LogGroup) (s : State)
    (k : String) (hk : ∀ g ∈ gs, k ≠ key ++ "::" ++ g.logGroupName) :
    (gs.foldl (markGroupStream key) s).rawStreams k = s.rawStreams k := by
  induction gs generalizing s with
  | nil => rfl
  | cons g rest ih =>
    rw [List.foldl_cons, ih _ (fun g2 hg2 => hk g2 (by simp [hg2]))]
    exact markGroupStream_rawStreams_ne key s g k (hk g (by simp))

theorem populateEvents_shape (st : State) (now : Int) (p r g s : String)
    (evs : List OutputLogEvent) :
    ∃ E S, (populateEvents st now p r g s evs).1 =
      { st with rawEvents := E, rawStreams := S } ∧
      (∀ k, k ≠ eventKey p r g s → E k = st.rawEvents k) ∧
      (∀ k, k ≠ streamKey p r g → S k = st.rawStreams k) := by
  by_cases hlen : evs.length = 0
  · refine ⟨st.rawEvents, st.rawStreams, ?_, fun k _ => rfl, fun k _ => rfl⟩
    simp only [populateEvents, if_pos hlen]
  cases hb : st.rawStreams (streamKey p r g) with
  | none =>
    refine ⟨mapUpdate st.rawEvents (eventKey p r g s)
        (some (sortCmp eventCmp ((st.rawEvents (eventKey p r g s)).getD [] ++ evs))),
      st.rawStreams, ?_, fun k hk => mapUpdate_ne _ _ _ _ hk, fun k _ => rfl⟩
    simp only [populateEvents, if_neg hlen, hb]
  | some bucket =>
    cases hf : bucket.find? (fun x => x.logStreamName == s) with
    | none =>
      refine ⟨mapUpdate st.rawEvents (eventKey p r g s)
        (some (sortCmp eventCmp ((st.rawEvents (eventKey p r g s)).getD [] ++ evs))),
        st.rawStreams, ?_, fun k hk => mapUpdate_ne _ _ _ _ hk, fun k _ => rfl⟩
      simp only [populateEvents, if_neg hlen, hb, hf]
    | some stream =>
      cases hsc : scanEvents (sortCmp eventCmp
          ((st.rawEvents (eventKey p r g s)).getD [] ++ evs)) 0 0 none with
      | error msg =>
        refine ⟨mapUpdate st.rawEvents (eventKey p r g s)
        (some (sortCmp eventCmp ((st.rawEvents (eventKey p r g s)).getD [] ++ evs))),
          st.rawStreams, ?_, fun k hk => mapUpdate_ne _ _ _ _ hk, fun k _ => rfl⟩
        simp only [populateEvents, if_neg hlen, hb, hf, hsc]
      | ok res =>
        obtain ⟨oT, oI, yT⟩ := res
        by_cases hcond : stream.firstEventTimestamp ≠ 0 ∧
            yT ≠ some stream.firstEventTimestamp
        · refine ⟨mapUpdate st.rawEvents (eventKey p r g s)
        (some (sortCmp eventCmp ((st.rawEvents (eventKey p r g s)).getD [] ++ evs))),
            st.rawStreams, ?_, fun k hk => mapUpdate_ne _ _ _ _ hk,
            fun k _ => rfl⟩
          simp only [populateEvents, if_neg hlen, hb, hf, hsc, if_pos hcond]
        · refine ⟨mapUpdate st.rawEvents (eventKey p r g s)
        (some (sortCmp eventCmp ((st.rawEvents (eventKey p r g s)).getD [] ++ evs))),
            mapUpdate st.rawStreams (streamKey p r g)
              (some (replaceFirst (fun x => x.logStreamName == s)
                (updateStreamMeta st.ingestionDelay now oT oI yT
                  ((sortCmp jsDefaultCmp ((sortCmp eventCmp
                    ((st.rawEvents (eventKey p r g s)).getD [] ++ evs)).map
                      (fun e => e.timestamp))).reverse) stream) bucket)),
            ?_, fun k hk => mapUpdate_ne _ _ _ _ hk,
            fun k hk => mapUpdate_ne _ _ _ _ hk⟩
          simp only [populateEvents, if_neg hlen, hb, hf, hsc, if_neg hcond]

theorem populateEvents_parts (st : State) (now : Int) (p r g s : String)
    (evs : List OutputLogEvent) :
    ((populateEvents st now p r g s evs).1.rawGroups = st.rawGroups) ∧
    ((populateEvents st now p r g s evs).1.tokens = st.tokens) ∧
    ((populateEvents st now p r g s evs).1.tokenCounter = st.tokenCounter) ∧
    (∀ k, k ≠ eventKey p r g s →
      (populateEvents st now p r g s evs).1.rawEvents k = st.rawEvents k) ∧
    (∀ k, k ≠ streamKey p r g →
      (populateEvents st now p r g s evs).1.rawStreams k = st.rawStreams k) := by
  obtain ⟨E, S, heq, hE, hS⟩ := populateEvents_shape st now p r g s evs
  rw [heq]
  exact ⟨rfl, rfl, rfl, hE, hS⟩

theorem except_map_map {ε α β γ : Type} (f : α → β) (h : β → γ) (x : Except ε α) :
    (x.map f).map h = x.map (fun a => h (f a)) := by
  cases x <;> rfl

theorem paginateGo_fst {α : Type} (st st2 : State)
    (hctr : st2.tokenCounter = st.tokenCounter) (l : List α) (off lim : Int) :
    (paginateGo st2 l off lim).1 = (paginateGo st l off lim).1 := by
  by_cases hc : (l.length : Int) > off + (if lim = 0 then 50 else lim)
  · simp [paginateGo, hc, mintToken, hctr]
  · simp [paginateGo, hc]

theorem paginate_fst_agree {α : Type} (st st2 : State) (l : List α) (tk : Option Nat)
    (lim : Int) (htok : st2.tokens = st.tokens)
    (hctr : st2.tokenCounter = st.tokenCounter) :
    (paginate st2 l tk lim).map Prod.fst = (paginate st l tk lim).map Prod.fst := by
  cases tk with
  | none =>
    simp only [paginate, Except.map]
    rw [paginateGo_fst st st2 hctr]
  | some u =>
    rw [paginate, paginate, htok]
    cases st.tokens u with
    | none => rfl
    | some off =>
      simp only [Except.map]
      rw [paginateGo_fst (consumeToken st u) (consumeToken st2 u)
        (by simp [consumeToken, hctr]) l off lim]

theorem paginate_resp_fst_agree {α β : Type} (st st2 : State) (l : List α)
    (tk : Option Nat) (lim : Int) (htok : st2.tokens = st.tokens)
    (hctr : st2.tokenCounter = st.tokenCounter) (f : Page α → β) :
    ((paginate st2 l tk lim).map (fun pg => (f pg.1, pg.2))).map Prod.fst =
    ((paginate st l tk lim).map (fun pg => (f pg.1, pg.2))).map Prod.fst := by
  have h2 := paginate_fst_agree st st2 l tk lim htok hctr
  cases hA : paginate st2 l tk lim with
  | error e =>
    cases hB : paginate st l tk lim with
    | error e2 =>
      rw [hA, hB] at h2
      simp only [Except.map] at h2 ⊢
      injection h2 with h3
      rw [h3]
    | ok pr =>
      rw [hA, hB] at h2
      simp [Except.map] at h2
  | ok pr =>
    cases hB : paginate st l tk lim with
    | error e2 =>
      rw [hA, hB] at h2
      simp [Except.map] at h2
    | ok pr2 =>
      rw [hA, hB] at h2
      simp only [Except.map, Except.ok.injEq] at h2 ⊢
      rw [h2]

theorem describeLogGroups_agree (st st2 : State) (p r : String)
    (h : scopeAgree p r st st2) (body : DescribeLogGroupsRequest) :
    (describeLogGroups st2 p r body).map Prod.fst =
      (describeLogGroups st p r body).map Prod.fst := by
  obtain ⟨hG, hS, hE, hT, hC⟩ := h
  rw [describeLogGroups, describeLogGroups, hG]
  cases st.rawGroups (scopeKey p r) with
  | none => rfl
  | some gs =>
    exact paginate_resp_fst_agree st st2 gs body.nextToken body.limit hT hC
      (fun page => DescribeLogGroupsResponse.mk page.items page.nextToken)

theorem describeLogStreams_agree (st st2 : State) (p r : String)
    (h : scopeAgree p r st st2) (body : DescribeLogStreamsRequest) :
    (describeLogStreams st2 p r body).map Prod.fst =
      (describeLogStreams st p r body).map Prod.fst := by
  obtain ⟨hG, hS, hE, hT, hC⟩ := h
  rw [describeLogStreams, describeLogStreams, hS]
  by_cases h1 : body.logGroupName = ""
  · simp [h1]
  rw [if_neg h1, if_neg h1]
  by_cases h2 : body.orderBy ≠ "" ∧ body.orderBy ≠ "LogStreamName" ∧
      body.orderBy ≠ "LastEventTime"
  · rw [if_pos h2, if_pos h2]
  rw [if_neg h2, if_neg h2]
  cases st.rawStreams (streamKey p r body.logGroupName) with
  | none => rfl
  | some bucket =>
    simp only [Except.bind]
    split
    · rfl
    · exact paginate_resp_fst_agree st st2 _ body.nextToken body.limit hT hC
        (fun page => DescribeLogStreamsResponse.mk page.items page.nextToken)

theorem getLogEvents_agree (st st2 : State) (p r : String)
    (h : scopeAgree p r st st2) (body : GetLogEventsRequest) :
    (getLogEvents st2 p r body).map Prod.fst =
      (getLogEvents st p r body).map Prod.fst := by
  obtain ⟨hG, hS, hE, hT, hC⟩ := h
  rw [getLogEvents, getLogEvents, hE]
  cases st.rawEvents (eventKey p r body.logGroupName body.logStreamName) with
  | none => rfl
  | some evs =>
    rw [hT]
    cases htk : body.nextToken with
    | none => simp [Except.map, mintToken, hC]
    | some u =>
      cases hto : st.tokens u with
      | none => simp [Except.map, hto]
      | some off => simp [Except.map, hto, mintToken, consumeToken, hC]

theorem scopeAgree_refl (p r : String) (st : State) : scopeAgree p r st st :=
  ⟨rfl, fun _ => rfl, fun _ _ => rfl, rfl, rfl⟩

theorem scopeAgree_trans {p r : String} {st st2 st3 : State}
    (h1 : scopeAgree p r st st2) (h2 : scopeAgree p r st2 st3) :
    scopeAgree p r st st3 := by
  obtain ⟨a1, b1, c1, d1, e1⟩ := h1
  obtain ⟨a2, b2, c2, d2, e2⟩ := h2
  exact ⟨a2.trans a1, fun g => (b2 g).trans (b1 g),
    fun g s => (c2 g s).trans (c1 g s), d2.trans d1, e2.trans e1⟩

theorem applyOp_scopeAgree (st : State) (op : AppendOp) (p2 r2 : String)
    (hp1 : colonFree (opScope op).1) (hr1 : colonFree (opScope op).2)
    (hp2 : colonFree p2) (hr2 : colonFree r2)
    (hne : opScope op ≠ (p2, r2)) :
    scopeAgree p2 r2 st (applyOp st op).1 := by
  cases op with
  | groups p1 r1 gs =>
    simp only [opScope] at hp1 hr1 hne
    refine ⟨?_, ?_, ?_, ?_, ?_⟩
    · simp only [applyOp, populateGroups]
      rw [foldl_mark_rawGroups]
      exact mapUpdate_ne _ _ _ _ (scopeKey_ne hp2 hr2 hp1 hr1 (fun h => hne h.symm))
    · intro g
      simp only [applyOp, populateGroups]
      exact foldl_mark_rawStreams_ne _ _ _ _
        (fun g2 _ => streamKey_scope_ne hp2 hr2 hp1 hr1 (fun h => hne h.symm) g
          g2.logGroupName)
    · intro g s
      simp only [applyOp]
      rw [populateGroups_rawEvents]
    · simp only [applyOp, populateGroups]
      rw [foldl_mark_tokens]
    · simp only [applyOp, populateGroups]
      rw [foldl_mark_counter]
  | streams p1 r1 g1 ss =>
    simp only [opScope] at hp1 hr1 hne
    refine ⟨rfl, ?_, fun _ _ => rfl, rfl, rfl⟩
    intro g
    simp only [applyOp, populateStreams]
    exact mapUpdate_ne _ _ _ _
      (streamKey_scope_ne hp2 hr2 hp1 hr1 (fun h => hne h.symm) g g1)
  | events now p1 r1 g1 s1 evs =>
    simp only [opScope] at hp1 hr1 hne
    obtain ⟨hA, hB, hD, hEv, hSt⟩ := populateEvents_parts st now p1 r1 g1 s1 evs
    simp only [applyOp]
    refine ⟨by rw [hA], ?_, ?_, by rw [hB], by rw [hD]⟩
    · intro g
      exact hSt _ (streamKey_scope_ne hp2 hr2 hp1 hr1 (fun h => hne h.symm) g g1)
    · intro g s
      exact hEv _ (eventKey_scope_ne hp2 hr2 hp1 hr1 (fun h => hne h.symm) g s g1 s1)

theorem applyOps_scopeAgree (st : State) (ops : List AppendOp) (p1 r1 p2 r2 : String)
    (hp1 : colonFree p1) (hr1 : colonFree r1) (hp2 : colonFree p2) (hr2 : colonFree r2)
    (hne : (p1, r1) ≠ (p2, r2)) (hops : ∀ op ∈ ops, opScope op = (p1, r1)) :
    scopeAgree p2 r2 st (applyOps st ops) := by
  induction ops generalizing st with
  | nil => exact scopeAgree_refl p2 r2 st
  | cons op rest ih =>
    have hsc := hops op (by simp)
    have h1 : scopeAgree p2 r2 st (applyOp st op).1 :=
      applyOp_scopeAgree st op p2 r2 (by rw [hsc]; exact hp1) (by rw [hsc]; exact hr1)
        hp2 hr2 (by rw [hsc]; exact hne)
    have hsplit : applyOps st (op :: rest) = applyOps (applyOp st op).1 rest := by
      simp [applyOps]
    rw [hsplit]
    exact scopeAgree_trans h1 (ih _ (fun op2 h2 => hops op2 (by simp [h2])))

/-- C9 amended: tenant scopes are isolated provided the account and region
strings contain no colon character, so that the composite string-key
encoding cannot collide (the counterexample shows isolation fails for
scope pairs like (a::b, c) and (a, b::c) whose encodings coincide):
whatever sequence of append operations runs under one scope, the result
of every list and query operation under any other such scope is
unchanged, for all group and stream names and request parameters. -/
theorem c9_scope_isolation (st : State) (ops : List AppendOp) (p1 r1 p2 r2 : String)
    (hops : ∀ op ∈ ops, opScope op = (p1, r1))
    (hp1 : colonFree p1) (hr1 : colonFree r1) (hp2 : colonFree p2) (hr2 : colonFree r2)
    (hne : (p1, r1) ≠ (p2, r2)) :
    (∀ body : DescribeLogGroupsRequest,
      (describeLogGroups (applyOps st ops) p2 r2 body).map Prod.fst =
        (describeLogGroups st p2 r2 body).map Prod.fst) ∧
    (∀ body : DescribeLogStreamsRequest,
      (describeLogStreams (applyOps st ops) p2 r2 body).map Prod.fst =
        (describeLogStreams st p2 r2 body).map Prod.fst) ∧
    (∀ body : GetLogEventsRequest,
      (getLogEvents (applyOps st ops) p2 r2 body).map Prod.fst =
        (getLogEvents st p2 r2 body).map Prod.fst) := by
  have hag := applyOps_scopeAgree st ops p1 r1 p2 r2 hp1 hr1 hp2 hr2 hne hops
  exact ⟨fun body => describeLogGroups_agree st (applyOps st ops) p2 r2 hag body,
    fun body => describeLogStreams_agree st (applyOps st ops) p2 r2 hag body,
    fun body => getLogEvents_agree st (applyOps st ops) p2 r2 hag body⟩

/-- C1: the delayed update is claimed to pick the largest timestamp meeting
timestamp < now − delay, timestamp < lastIngestionTime − delay and
timestamp > lastEventTimestamp.  Evaluating the code at the failing input:
after the second ingest the stored stream is exactly the record with
lastEventTimestamp 9 and lastIngestionTime 1000, the accumulated
timestamps are 1, 5, 9, 100, the delay is 1 and the previous
lastEventTimestamp was 5 — yet 100, which also meets all three conditions
(100 < 1000000 − 1, 100 < 1000 − 1, 100 > 5) and is larger than 9, is not
chosen: the descending scan runs over decimal-string order, where 9 sorts
after 100. -/
theorem c1_delay_scan_picks_string_largest :
    c1State2.ingestionDelay = 1 ∧
    ((c1State1.rawStreams (streamKey "p" "r" "g")).getD []).map
        LogStream.lastEventTimestamp = [5] ∧
    (c1State2.rawStreams (streamKey "p" "r" "g")).getD [] =
      [{ logStreamName := "s", firstEventTimestamp := 1, lastEventTimestamp := 9,
         lastIngestionTime := 1000 }] ∧
    ((c1State2.rawEvents (eventKey "p" "r" "g" "s")).getD []).map
        OutputLogEvent.timestamp = [1, 5, 9, 100] ∧
    ((100 : Int) < 1000000 - 1 ∧ (100 : Int) < 1000 - 1 ∧ (100 : Int) > 5) ∧
    ¬ (9 : Int) = 100 := by decide

/-- C2: the claim that orderBy = LastEventTime returns streams sorted
ascending by lastEventTimestamp is false at this input: the returned
order is 5, 3, and 5 is not at most 3. -/
theorem c2_counterexample :
    (describeLogStreams c2State "p" "r"
        { logGroupName := "g", orderBy := "LastEventTime" }).map
      (fun x => x.1.logStreams.map LogStream.lastEventTimestamp) = .ok [5, 3] ∧
    ¬ (5 : Int) ≤ 3 := by decide

/-- C3: the claim that every later batch whose minimum timestamp differs
from the recorded firstEventTimestamp fails is false at this input: the
stream's recorded firstEventTimestamp is 1, the new batch has minimum
timestamp 7 ≠ 1, and the call succeeds (the check compares the minimum of
the merged accumulated list, which is still 1). -/
theorem c3_counterexample :
    ((c1State1.rawStreams (streamKey "p" "r" "g")).getD []).map
        LogStream.firstEventTimestamp = [1] ∧
    (populateEvents c1State1 1000000 "p" "r" "g" "s" [mkEvent 7 1000 "c"]).2 = .ok () ∧
    ¬ (7 : Int) = 1 := by decide

/-- C5: the claim that every getLogEvents call mints and registers two fresh
tokens is false at this input: on a stream key that was never populated
the call returns an empty result with no tokens at all, and the token
counter shows nothing was registered. -/
theorem c5_counterexample :
    (getLogEvents (initialState 0) "p" "r"
        { logGroupName := "g", logStreamName := "s" }).map Prod.fst =
      .ok { events := [], nextForwardToken := none, nextBackwardToken := none } ∧
    (getLogEvents (initialState 0) "p" "r"
        { logGroupName := "g", logStreamName := "s" }).map
      (fun x => x.2.tokenCounter) = .ok 0 := by decide

/-- C6: the claim that presenting a never-issued token fails with an
invalid-token error is false at this input: describeLogGroups on an
unknown scope returns an empty success result although the body presents
token 5, which was never issued. -/
theorem c6_counterexample :
    (initialState 0).tokens 5 = none ∧
    (describeLogGroups (initialState 0) "p" "r"
        { limit := 0, nextToken := some 5 }).map Prod.fst =
      .ok { logGroups := [], nextToken := none } := by decide

/-- C9: the claim that any two distinct scopes are isolated is false at this
input: the scopes (a::b, c) and (a, b::c) are distinct, yet appending a
group under the first changes what describeLogGroups returns under the
second, because both collapse to the composite key a::b::c. -/
theorem c9_counterexample :
    (("a::b", "c") : String × String) ≠ ("a", "b::c") ∧
    (describeLogGroups
        (applyOps (initialState 0) [AppendOp.groups "a::b" "c" [{ logGroupName := "g" }]])
        "a" "b::c" { limit := 0, nextToken := none }).map Prod.fst ≠
      (describeLogGroups (initialState 0) "a" "b::c"
        { limit := 0, nextToken := none }).map Prod.fst := by decide

/-- C2 witness: the amended statement evaluated at the concrete scenario. -/
theorem c2_witness :
    (describeLogStreams c2State "p" "r"
        { logGroupName := "g", orderBy := "LastEventTime", limit := 0 }).map
      (fun x => x.1.logStreams) =
      .ok (jsSlice [{ logStreamName := "s1", lastEventTimestamp := 5 },
        { logStreamName := "s2", lastEventTimestamp := 3 }] 0
        (if (0 : Int) = 0 then 50 else 0)) :=
  c2_lastEventTime_insertion_order c2State "p" "r" "g"
    [{ logStreamName := "s1", lastEventTimestamp := 5 },
     { logStreamName := "s2", lastEventTimestamp := 3 }] 0 (by decide) (by decide)

/-- C3 witness: over the stream with recorded firstEventTimestamp 1, a batch
with minimum 7 is rejected exactly when 7 < 1 — that is, never. -/
theorem c3_witness :
    ((populateEvents c1State1 1000000 "p" "r" "g" "s" [mkEvent 7 1000 "c"]).2 =
      .error "Cannot populateEvents() that are younger then existing events") ↔
      (7 : Int) < 1 :=
  c3_min_check c1State1 1000000 "p" "r" "g" "s"
    [mkEvent 1 50 "a", mkEvent 5 50 "b"] [mkEvent 7 1000 "c"]
    [c1StreamRec] c1StreamRec
    1 7 (by decide) (by decide) (by decide) (by decide) (by decide) (by decide)
    (by decide) (by decide) (by decide) (by decide)

/-- C4 witness: the three shapes of the claim at concrete inputs. -/
theorem c4_witness :
    (describeLogStreams (initialState 0) "p" "r" { logGroupName := "g" } =
      .error "The specified log group does not exist.") ∧
    ((populateStreams (initialState 0) "p" "r" "g" []).rawStreams
      (streamKey "p" "r" "g") = some []) ∧
    ((populateGroups (initialState 0) "p" "r" [{ logGroupName := "g" }]).rawStreams
      (streamKey "p" "r" "g") ≠ none) := by
  have h := c4_unknown_group_vs_empty_group (initialState 0) "p" "r" "g" 0 none (by decide)
  exact ⟨h.1 rfl, by simpa using h.2.2.1,
    h.2.2.2 [{ logGroupName := "g" }] { logGroupName := "g" } (by simp)⟩

/-- C5 witness: the tail window and double token mint on a stream holding
two events, with limit 1 and no token. -/
theorem c5_witness :
    ∃ st1 : State,
      getLogEvents c1State1 "p" "r"
          { logGroupName := "g", logStreamName := "s", limit := 1 } =
        .ok ({ events := claimWindow (filteredEvents
                 { logGroupName := "g", logStreamName := "s", limit := 1 }
                 [mkEvent 1 50 "a", mkEvent 5 50 "b"])
                 (if (1 : Int) = 0 then 10000 else 1) 0,
               nextForwardToken := some c1State1.tokenCounter,
               nextBackwardToken := some (c1State1.tokenCounter + 1) }, st1) ∧
      st1.tokens c1State1.tokenCounter = some (0 - (if (1 : Int) = 0 then 10000 else 1)) ∧
      st1.tokens (c1State1.tokenCounter + 1) =
        some (0 + (if (1 : Int) = 0 then 10000 else 1)) ∧
      c1State1.tokenCounter ≠ c1State1.tokenCounter + 1 :=
  c5_window_and_two_tokens c1State1 "p" "r"
    { logGroupName := "g", logStreamName := "s", limit := 1 }
    [mkEvent 1 50 "a", mkEvent 5 50 "b"] 0 (by decide) (Or.inl ⟨rfl, rfl⟩)

/-- C6 witness: on a state holding one live token (id 0), presenting the
never-issued token 7 to describeLogGroups of the known scope fails. -/
theorem c6_witness :
    describeLogGroups c6State "p" "r" { limit := 0, nextToken := some 7 } =
      .error ("invalid nextToken: " ++ toString 7) := by
  have hwf : wfTokens c6State := by
    intro u hu
    by_cases h : u = 0
    · subst h
      decide
    · exfalso
      apply hu
      simp [c6State, tokUpdate, h]
  exact (c6_tokens_single_use c6State "p" "r" 7 hwf).1
    { limit := 0, nextToken := some 7 } [{ logGroupName := "g" }]
    (by decide) rfl (by decide)

/-- C7 witness: the op sequence appends the batch out of order, yet the
stored list is the ascending one. -/
theorem c7_witness :
    List.Pairwise (fun a b => a.timestamp ≤ b.timestamp)
      [mkEvent 1 50 "a", mkEvent 5 50 "b"] :=
  c7_events_sorted_after_appends 1 c7Ops ⟨rfl, rfl, rfl, trivial⟩
    (eventKey "p" "r" "g" "s") [mkEvent 1 50 "a", mkEvent 5 50 "b"] (by decide)

/-- C8 witness: the stream's lastEventTimestamp 5 does not decrease across
the second ingest. -/
theorem c8_witness :
    ∃ s1, (((populateEvents c1State1 1000000 "p" "r" "g" "s"
        [mkEvent 9 1000 "c", mkEvent 100 1000 "d"]).1.rawStreams
          (streamKey "p" "r" "g")).bind (fun l => l[0]?)) = some s1 ∧
      LogStream.lastEventTimestamp c1StreamRec ≤ s1.lastEventTimestamp :=
  c8_lastEventTimestamp_monotone c1State1 1000000 "p" "r" "g" "s"
    [mkEvent 9 1000 "c", mkEvent 100 1000 "d"] (streamKey "p" "r" "g") 0
    c1StreamRec (by decide) (by decide)

/-- C9 witness: appends under scope (a, b) leave a describeLogGroups call
under scope (x, y) unchanged. -/
theorem c9_witness :
    (describeLogGroups (applyOps (initialState 0)
        [AppendOp.groups "a" "b" [{ logGroupName := "g" }]]) "x" "y"
        { limit := 0, nextToken := none }).map Prod.fst =
      (describeLogGroups (initialState 0) "x" "y"
        { limit := 0, nextToken := none }).map Prod.fst :=
  (c9_scope_isolation (initialState 0)
    [AppendOp.groups "a" "b" [{ logGroupName := "g" }]] "a" "b" "x" "y"
    (fun op hop => by rw [List.mem_singleton.mp hop]; rfl)
    (by decide) (by decide) (by decide) (by decide) (by decide)).1
    { limit := 0, nextToken := none }

/-- C10 witness: a batch with minimum −3, older than the recorded first
event 1, is rejected, yet the merged list is stored while the bucket of
stream records stays untouched. -/
theorem c10_witness :
    (populateEvents c1State1 1000000 "p" "r" "g" "s" [mkEvent (-3) 1000 "c"]).2 =
      .error "Cannot populateEvents() that are younger then existing events" ∧
    (populateEvents c1State1 1000000 "p" "r" "g" "s"
        [mkEvent (-3) 1000 "c"]).1.rawEvents =
      mapUpdate c1State1.rawEvents (eventKey "p" "r" "g" "s")
        (some (sortCmp eventCmp ((c1State1.rawEvents (eventKey "p" "r" "g" "s")).getD []
          ++ [mkEvent (-3) 1000 "c"]))) ∧
    (populateEvents c1State1 1000000 "p" "r" "g" "s"
        [mkEvent (-3) 1000 "c"]).1.rawStreams = c1State1.rawStreams ∧
    (populateEvents c1State1 1000000 "p" "r" "g" "s"
        [mkEvent (-3) 1000 "c"]).1.rawGroups = c1State1.rawGroups ∧
    (populateEvents c1State1 1000000 "p" "r" "g" "s"
        [mkEvent (-3) 1000 "c"]).1.tokens = c1State1.tokens ∧
    (populateEvents c1State1 1000000 "p" "r" "g" "s"
        [mkEvent (-3) 1000 "c"]).1.tokenCounter = c1State1.tokenCounter ∧
    ∀ e ∈ [mkEvent (-3) 1000 "c"],
      e ∈ sortCmp eventCmp ((c1State1.rawEvents (eventKey "p" "r" "g" "s")).getD []
        ++ [mkEvent (-3) 1000 "c"]) :=
  c10_rejection_after_merge c1State1 1000000 "p" "r" "g" "s" [mkEvent (-3) 1000 "c"]
    [c1StreamRec] c1StreamRec
    5 1000 (some (-3)) (by decide) (by decide) (by decide) (by decide) (by decide)
    (by decide)

end FakeCloudwatchLogs
